import Mathlib

/-!
Shallow embedding of `src/lib/Transfers/TransfersConsumer.cpp` (Qwertycoin
wallet-side transaction consumer) together with theorems checking the
natural-language specification against it.

Machine integers of the source (`uint32_t`, `uint64_t`, `size_t`) are modelled
as `Nat`; none of the modelled computations overflow (indices, heights and
counters only ever grow by small increments and are compared, never wrapped).
Cryptographic primitives (`generate_key_derivation`, `underive_public_key`,
`generate_key_image_helper`) are out of scope of the source file and are
passed in as abstract function parameters, exactly as the spec treats them
("specified only by signature and semantics").  Fallible operations return
`Option` or an explicit error-code value.
-/

namespace TransfersConsumerModel

/-- Public keys are modelled as naturals (only equality is used by the code). -/
abbrev PublicKey := Nat

/-- Transaction and block hashes, modelled as naturals. -/
abbrev Hash := Nat

/-- View/spend secret keys, modelled as naturals. -/
abbrev SecretKey := Nat

/-- Key derivations (shared secrets), modelled as naturals. -/
abbrev KeyDerivation := Nat

/-- The all-zero public key used to skip transactions (`NULL_PUBLIC_KEY`). -/
def NULL_PUBLIC_KEY : PublicKey := 0

/-- Modelled from the spec: the sentinel height marking mempool transactions
(`WALLET_UNCONFIRMED_TRANSACTION_HEIGHT`), defined in wallet constants outside
the given source file; the spec only requires it to be a distinguished value
(`uint32` max in the wallet headers). -/
def WALLET_UNCONFIRMED_TRANSACTION_HEIGHT : Nat := 2 ^ 32 - 1

/-- Modelled from the spec: the sentinel global output index for unconfirmed
outputs (`UNCONFIRMED_TRANSACTION_GLOBAL_OUTPUT_INDEX`), defined in wallet
constants outside the given source file. -/
def UNCONFIRMED_TRANSACTION_GLOBAL_OUTPUT_INDEX : Nat := 2 ^ 32 - 1

/-- Output type tag (`TransactionTypes::OutputType`). -/
inductive OutputType where
  | key
  | multisignature
  | other
deriving DecidableEq

/-- One transaction output as read through `ITransactionReader::getOutput`:
a `KeyOutput` with its amount, a `MultisignatureOutput` with its key list,
required-signature count and amount, or an output of any other type. -/
inductive TxOutput where
  | key (k : PublicKey) (amount : Nat)
  | multisignature (keys : List PublicKey) (requiredSignatureCount : Nat) (amount : Nat)
  | other
deriving DecidableEq

/-- The type tag of an output. -/
def TxOutput.typeOf : TxOutput → OutputType
  | .key _ _ => .key
  | .multisignature _ _ _ => .multisignature
  | .other => .other

/-- The part of `ITransactionReader` the consumer reads: the transaction
public key, the transaction hash and the output list (`getOutputCount` is the
list length, `getOutputType`/`getOutput` read the list). -/
structure TransactionData where
  transactionPublicKey : PublicKey
  transactionHash : Hash
  outputs : List TxOutput
deriving DecidableEq

/-- `ITransactionReader::getOutputCount`. -/
def TransactionData.getOutputCount (tx : TransactionData) : Nat :=
  tx.outputs.length

/-- `TransactionBlockInfo`: height, timestamp and position of the transaction
inside its block. -/
structure TransactionBlockInfo where
  height : Nat
  timestamp : Nat
  transactionIndex : Nat
deriving DecidableEq

/-! ## Output scanner (`findMyOutputs`, lines 46-100) -/

/-- The accumulated scanner result `std::unordered_map<PublicKey,
std::vector<uint32_t>>`, modelled as an association list in first-insertion
order; `push_back` on `outputs[spendKey]` appends to the entry, creating it at
the end if absent. -/
abbrev OutputsMap := List (PublicKey × List Nat)

/-- Append output index `i` to the entry of `k`, creating the entry if absent
(the effect of `outputs[k].push_back(i)`). -/
def pushOutput : OutputsMap → PublicKey → Nat → OutputsMap
  | [], k, i => [(k, [i])]
  | (k', l) :: rest, k, i =>
      if k' = k then (k', l ++ [i]) :: rest else (k', l) :: pushOutput rest k i

/-- `checkOutputKey` (lines 46-60): underive the candidate spend key from the
derivation at `keyIndex` and record `outputIndex` when it is a watched key. -/
def checkOutputKey (underive : KeyDerivation → Nat → PublicKey → PublicKey)
    (derivation : KeyDerivation) (key : PublicKey) (keyIndex outputIndex : Nat)
    (spendKeys : List PublicKey) (outputs : OutputsMap) : OutputsMap :=
  let spendKey := underive derivation keyIndex key
  if spendKey ∈ spendKeys then pushOutput outputs spendKey outputIndex else outputs

/-- The inner loop of the multisignature case of `findMyOutputs` (lines 94-97):
each sub-key is checked with the *output index* `idx` both as key index and as
output index, and `keyIndex` is incremented once per sub-key. -/
def msScan (underive : KeyDerivation → Nat → PublicKey → PublicKey)
    (derivation : KeyDerivation) (spendKeys : List PublicKey) (idx : Nat) :
    List PublicKey → Nat → OutputsMap → Nat × OutputsMap
  | [], keyIndex, acc => (keyIndex, acc)
  | k :: rest, keyIndex, acc =>
      msScan underive derivation spendKeys idx rest (keyIndex + 1)
        (checkOutputKey underive derivation k idx idx spendKeys acc)

/-- The output loop of `findMyOutputs` (lines 79-99), threading the running
`keyIndex` across addressable outputs. -/
def findMyOutputsLoop (underive : KeyDerivation → Nat → PublicKey → PublicKey)
    (derivation : KeyDerivation) (spendKeys : List PublicKey) :
    List TxOutput → Nat → Nat → OutputsMap → OutputsMap
  | [], _, _, acc => acc
  | .key k _ :: rest, idx, keyIndex, acc =>
      findMyOutputsLoop underive derivation spendKeys rest (idx + 1) (keyIndex + 1)
        (checkOutputKey underive derivation k keyIndex idx spendKeys acc)
  | .multisignature keys _ _ :: rest, idx, keyIndex, acc =>
      let r := msScan underive derivation spendKeys idx keys keyIndex acc
      findMyOutputsLoop underive derivation spendKeys rest (idx + 1) r.1 r.2
  | .other :: rest, idx, keyIndex, acc =>
      findMyOutputsLoop underive derivation spendKeys rest (idx + 1) keyIndex acc

/-- `findMyOutputs` (lines 62-100): derive the shared secret (empty result on
failure) and scan all outputs.  `generateKeyDerivation` abstracts
`generate_key_derivation`, returning `none` on failure. -/
def findMyOutputs
    (generateKeyDerivation : PublicKey → SecretKey → Option KeyDerivation)
    (underive : KeyDerivation → Nat → PublicKey → PublicKey)
    (tx : TransactionData) (viewSecretKey : SecretKey)
    (spendKeys : List PublicKey) : OutputsMap :=
  match generateKeyDerivation tx.transactionPublicKey viewSecretKey with
  | none => []
  | some derivation =>
      findMyOutputsLoop underive derivation spendKeys tx.outputs 0 0 []

/-! ### Specification-side scanner, for the refinement claim C3

The spec describes the scanner without a threaded counter: the key index used
for a Key output at absolute position `i` is the number of addressable entries
(Key outputs count one, multisignature outputs count one per sub-key) among
the outputs before `i`, and every sub-key of a multisignature output at
position `i` is checked with `i` itself. -/

/-- How many addressable entries an output contributes to the running
key index. -/
def addressableWeight : TxOutput → Nat
  | .key _ _ => 1
  | .multisignature keys _ _ => keys.length
  | .other => 0

/-- The value of the running key index just before output `i`: the total
addressable weight of the outputs preceding `i`. -/
def keyIndexBefore (outs : List TxOutput) (i : Nat) : Nat :=
  ((outs.take i).map addressableWeight).sum

/-- One spec-side scanner step for the indexed output `p`. -/
def scanSpecStep (underive : KeyDerivation → Nat → PublicKey → PublicKey)
    (derivation : KeyDerivation) (spendKeys : List PublicKey)
    (outs : List TxOutput) (acc : OutputsMap) (p : Nat × TxOutput) : OutputsMap :=
  match p.2 with
  | .key k _ =>
      checkOutputKey underive derivation k (keyIndexBefore outs p.1) p.1 spendKeys acc
  | .multisignature keys _ _ =>
      keys.foldl (fun a k => checkOutputKey underive derivation k p.1 p.1 spendKeys a) acc
  | .other => acc

/-- Specification-side scanner: fold the spec step over the indexed outputs. -/
def findMyOutputsSpec
    (generateKeyDerivation : PublicKey → SecretKey → Option KeyDerivation)
    (underive : KeyDerivation → Nat → PublicKey → PublicKey)
    (tx : TransactionData) (viewSecretKey : SecretKey)
    (spendKeys : List PublicKey) : OutputsMap :=
  match generateKeyDerivation tx.transactionPublicKey viewSecretKey with
  | none => []
  | some derivation =>
      tx.outputs.enum.foldl
        (scanSpecStep underive derivation spendKeys tx.outputs) []

/-! ### Scanner lemmas -/

theorem msScan_fst (underive : KeyDerivation → Nat → PublicKey → PublicKey)
    (derivation : KeyDerivation) (spendKeys : List PublicKey) (idx : Nat) :
    ∀ (keys : List PublicKey) (keyIndex : Nat) (acc : OutputsMap),
      (msScan underive derivation spendKeys idx keys keyIndex acc).1
        = keyIndex + keys.length
  | [], keyIndex, acc => by simp [msScan]
  | k :: rest, keyIndex, acc => by
      simp [msScan, msScan_fst underive derivation spendKeys idx rest]
      omega

theorem msScan_snd (underive : KeyDerivation → Nat → PublicKey → PublicKey)
    (derivation : KeyDerivation) (spendKeys : List PublicKey) (idx : Nat) :
    ∀ (keys : List PublicKey) (keyIndex : Nat) (acc : OutputsMap),
      (msScan underive derivation spendKeys idx keys keyIndex acc).2
        = keys.foldl
            (fun a k => checkOutputKey underive derivation k idx idx spendKeys a) acc
  | [], _, _ => by simp [msScan]
  | k :: rest, keyIndex, acc => by
      simp only [msScan, List.foldl_cons]
      exact msScan_snd underive derivation spendKeys idx rest (keyIndex + 1) _

theorem keyIndexBefore_take_all :
    ∀ (pre rest : List TxOutput),
      keyIndexBefore (pre ++ rest) pre.length = (pre.map addressableWeight).sum
  | [], rest => by simp [keyIndexBefore]
  | p :: pre, rest => by
      simp only [keyIndexBefore, List.cons_append, List.length_cons,
        List.take_succ_cons, List.map_cons, List.sum_cons]
      have := keyIndexBefore_take_all pre rest
      simp only [keyIndexBefore] at this
      omega

theorem findMyOutputsLoop_eq_spec
    (underive : KeyDerivation → Nat → PublicKey → PublicKey)
    (derivation : KeyDerivation) (spendKeys : List PublicKey)
    (full : List TxOutput) :
    ∀ (rest pre : List TxOutput) (acc : OutputsMap), full = pre ++ rest →
      findMyOutputsLoop underive derivation spendKeys rest pre.length
          (keyIndexBefore full pre.length) acc
        = (rest.enumFrom pre.length).foldl
            (scanSpecStep underive derivation spendKeys full) acc := by
  intro rest
  induction rest with
  | nil => intro pre acc h; simp [findMyOutputsLoop, List.enumFrom]
  | cons out rest ih =>
      intro pre acc h
      have hkib : keyIndexBefore full (pre.length + 1)
          = keyIndexBefore full pre.length + addressableWeight out := by
        subst h
        have h1 := keyIndexBefore_take_all (pre ++ [out]) rest
        have h2 := keyIndexBefore_take_all pre (out :: rest)
        simp only [List.append_assoc, List.singleton_append, List.length_append,
          List.length_singleton, List.map_append, List.sum_append, List.map_cons,
          List.sum_cons, List.map_nil, List.sum_nil] at h1 h2
        omega
      have hfull' : full = (pre ++ [out]) ++ rest := by simp [h]
      have hlen : (pre ++ [out]).length = pre.length + 1 := by simp
      cases out with
      | key k a =>
          simp only [findMyOutputsLoop, List.enumFrom, List.foldl_cons]
          have := ih (pre ++ [TxOutput.key k a]) (checkOutputKey underive derivation k
            (keyIndexBefore full pre.length) pre.length spendKeys acc) hfull'
          rw [hlen] at this
          simp only [addressableWeight] at hkib
          rw [hkib] at this
          rw [this]
          simp [scanSpecStep]
      | multisignature keys r a =>
          simp only [findMyOutputsLoop, List.enumFrom, List.foldl_cons]
          rw [msScan_fst, msScan_snd]
          have := ih (pre ++ [TxOutput.multisignature keys r a])
            (keys.foldl (fun a k =>
              checkOutputKey underive derivation k pre.length pre.length spendKeys a) acc)
            hfull'
          rw [hlen] at this
          simp only [scanSpecStep, addressableWeight] at hkib ⊢
          rw [← this, hkib]
      | other =>
          simp only [findMyOutputsLoop, List.enumFrom, List.foldl_cons]
          have := ih (pre ++ [TxOutput.other]) acc hfull'
          rw [hlen] at this
          simp only [addressableWeight, Nat.add_zero] at hkib
          rw [hkib] at this
          rw [this]
          simp [scanSpecStep]

/-- C3: the scanner maintains a running `key_index` over addressable outputs,
testing each Key output with `underive_public_key(derivation, key_index,
out.key)` and advancing the index by one per Key output; each sub-key of a
Multisignature output is instead tested with the output's position `i` as the
key-index argument while the running index still advances once per sub-key;
other output types are skipped and do not advance the index.  This is stated
as equality between the embedded scanner (threaded counter) and the
specification-side scanner in which the key index of output `i` is the
addressable weight of the outputs before `i` and multisignature sub-keys use
`i` itself. -/
theorem c3_scanner_key_index
    (generateKeyDerivation : PublicKey → SecretKey → Option KeyDerivation)
    (underive : KeyDerivation → Nat → PublicKey → PublicKey)
    (tx : TransactionData) (viewSecretKey : SecretKey)
    (spendKeys : List PublicKey) :
    findMyOutputs generateKeyDerivation underive tx viewSecretKey spendKeys
      = findMyOutputsSpec generateKeyDerivation underive tx viewSecretKey spendKeys := by
  unfold findMyOutputs findMyOutputsSpec
  cases generateKeyDerivation tx.transactionPublicKey viewSecretKey with
  | none => rfl
  | some derivation =>
      have := findMyOutputsLoop_eq_spec underive derivation spendKeys tx.outputs
        tx.outputs [] [] (by simp)
      simpa [keyIndexBefore, List.enum] using this

/-! ## Transfer builder (`createTransfers`, lines 447-558) and the
process-wide seen-keys registry (lines 38-40, 438-445) -/

/-- The process-wide registry: `transactions_hash_seen` and
`public_keys_seen` (two `std::unordered_set`s, modelled as finite sets). -/
structure SeenRegistry where
  hashes : Finset Hash
  keys : Finset PublicKey
deriving DecidableEq

/-- `TransfersConsumer::addPublicKeysSeen` (lines 438-445): insert the hash
and the output key into the registry. -/
def addPublicKeysSeen (seen : SeenRegistry) (transactionHash : Hash)
    (outputKey : PublicKey) : SeenRegistry :=
  ⟨insert transactionHash seen.hashes, insert outputKey seen.keys⟩

/-- `TransactionOutputInformationIn` as filled by `createTransfers`; fields a
branch does not assign keep the default. -/
structure TransactionOutputInformationIn where
  type : OutputType
  transactionPublicKey : PublicKey
  outputInTransaction : Nat
  globalOutputIndex : Nat
  amount : Nat := 0
  outputKey : PublicKey := 0
  keyImage : Nat := 0
  requiredSignatures : Nat := 0
deriving DecidableEq

/-- Error codes the modelled functions produce: `std::error_code{}` (success),
`std::errc::argument_out_of_domain`, or any other non-zero code (node
failures, worker exceptions), tagged by a code number. -/
inductive ErrC where
  | ok
  | argumentOutOfDomain
  | err (code : Nat)
deriving DecidableEq

/-- How the loop of `createTransfers` ended: it ran through all owned
indices (`completed`, reaching the final registry merge), returned early
with a *success* error code on a duplicate output key (`dropped`), or
returned early with `argument_out_of_domain` (`outOfDomain`). -/
inductive BuildExit where
  | completed
  | dropped
  | outOfDomain
deriving DecidableEq

/-- The `globalOutputIndex` assigned at line 477-478: the sentinel for a
mempool transaction, otherwise `globalIdxs[idx]`. -/
def globalIndexFor (blockInfo : TransactionBlockInfo) (globalIdxs : List Nat)
    (idx : Nat) : Nat :=
  if blockInfo.height = WALLET_UNCONFIRMED_TRANSACTION_HEIGHT then
    UNCONFIRMED_TRANSACTION_GLOBAL_OUTPUT_INDEX
  else globalIdxs.getD idx 0

/-- The per-sub-key check loop of the multisignature branch (lines 522-542):
when the transaction hash is not yet seen, a sub-key found in
`public_keys_seen` or already staged in `temp_keys` aborts the whole call
(`none`); otherwise fresh sub-keys are staged.  Returns the updated
`temp_keys` on success. -/
def msKeysCheck (txHashSeen : Bool) (seenKeys : Finset PublicKey) :
    List PublicKey → List PublicKey → Option (List PublicKey)
  | [], tempKeys => some tempKeys
  | k :: rest, tempKeys =>
      if txHashSeen then msKeysCheck txHashSeen seenKeys rest tempKeys
      else if k ∈ seenKeys then none
      else if k ∈ tempKeys then none
      else msKeysCheck txHashSeen seenKeys rest (tempKeys ++ [k])

/-- The loop of `createTransfers` over the owned output indices (lines
460-548), threading the `temp_keys` scratchpad and the `transfers` output
vector (the caller's vector, which early returns leave as already filled).
`kiHelper` abstracts `generate_key_image_helper` (account, tx public key,
output index ↦ key image). -/
def createTransfersLoop (kiHelper : Nat → PublicKey → Nat → Nat) (account : Nat)
    (blockInfo : TransactionBlockInfo) (tx : TransactionData)
    (globalIdxs : List Nat) (seen : SeenRegistry) :
    List Nat → List PublicKey → List TransactionOutputInformationIn →
      BuildExit × List TransactionOutputInformationIn × List PublicKey
  | [], tempKeys, transfers => (.completed, transfers, tempKeys)
  | idx :: rest, tempKeys, transfers =>
      if tx.getOutputCount ≤ idx then (.outOfDomain, transfers, tempKeys)
      else
        match tx.outputs.getD idx .other with
        | .key k amount =>
            let info : TransactionOutputInformationIn :=
              { type := .key, transactionPublicKey := tx.transactionPublicKey,
                outputInTransaction := idx,
                globalOutputIndex := globalIndexFor blockInfo globalIdxs idx,
                amount := amount, outputKey := k,
                keyImage := kiHelper account tx.transactionPublicKey idx }
            if tx.transactionHash ∈ seen.hashes then
              createTransfersLoop kiHelper account blockInfo tx globalIdxs seen rest
                tempKeys (transfers ++ [info])
            else if k ∈ seen.keys then (.dropped, transfers, tempKeys)
            else if k ∈ tempKeys then (.dropped, transfers, tempKeys)
            else
              createTransfersLoop kiHelper account blockInfo tx globalIdxs seen rest
                (tempKeys ++ [k]) (transfers ++ [info])
        | .multisignature keys req amount =>
            let info : TransactionOutputInformationIn :=
              { type := .multisignature,
                transactionPublicKey := tx.transactionPublicKey,
                outputInTransaction := idx,
                globalOutputIndex := globalIndexFor blockInfo globalIdxs idx,
                amount := amount, requiredSignatures := req }
            match msKeysCheck (tx.transactionHash ∈ seen.hashes) seen.keys keys
                tempKeys with
            | none => (.dropped, transfers, tempKeys)
            | some tempKeys' =>
                createTransfersLoop kiHelper account blockInfo tx globalIdxs seen rest
                  tempKeys' (transfers ++ [info])
        | .other =>
            createTransfersLoop kiHelper account blockInfo tx globalIdxs seen rest
              tempKeys transfers

/-- The observable result of `TransfersConsumer::createTransfers`: the
returned error code, the contents of the caller's `transfers` vector, and the
registry state after the call. -/
structure CreateResult where
  ec : ErrC
  transfers : List TransactionOutputInformationIn
  seen : SeenRegistry
deriving DecidableEq

/-- `TransfersConsumer::createTransfers` (lines 447-558): run the loop; when
it completes, merge the transaction hash and the staged `temp_keys` into the
registry (lines 550-555); early returns leave the registry untouched.  Both
early returns keep whatever was already pushed into the caller's `transfers`
vector. -/
def createTransfers (kiHelper : Nat → PublicKey → Nat → Nat) (account : Nat)
    (blockInfo : TransactionBlockInfo) (tx : TransactionData)
    (outputs : List Nat) (globalIdxs : List Nat) (seen : SeenRegistry) :
    CreateResult :=
  match createTransfersLoop kiHelper account blockInfo tx globalIdxs seen
      outputs [] [] with
  | (.completed, transfers, tempKeys) =>
      ⟨.ok, transfers,
        ⟨insert tx.transactionHash seen.hashes, seen.keys ∪ tempKeys.toFinset⟩⟩
  | (.dropped, transfers, _) => ⟨.ok, transfers, seen⟩
  | (.outOfDomain, transfers, _) => ⟨.argumentOutOfDomain, transfers, seen⟩

/-- The output keys the duplicate-key defense inspects for the output at
index `idx`: the single key of a Key output, every sub-key of a
multisignature output, nothing otherwise. -/
def outputKeysAt (tx : TransactionData) (idx : Nat) : List PublicKey :=
  match tx.outputs.getD idx .other with
  | .key k _ => [k]
  | .multisignature keys _ _ => keys
  | .other => []

/-! ### Transfer-builder lemmas -/

/-- Continue a build-loop result: a completed run keeps going, an early
return stands. -/
def buildStepCont
    (next : List PublicKey → List TransactionOutputInformationIn →
      BuildExit × List TransactionOutputInformationIn × List PublicKey) :
    BuildExit × List TransactionOutputInformationIn × List PublicKey →
      BuildExit × List TransactionOutputInformationIn × List PublicKey
  | (.completed, transfers, tempKeys) => next tempKeys transfers
  | r => r

theorem createTransfersLoop_append (kiHelper : Nat → PublicKey → Nat → Nat)
    (account : Nat) (blockInfo : TransactionBlockInfo) (tx : TransactionData)
    (globalIdxs : List Nat) (seen : SeenRegistry) :
    ∀ (l₁ l₂ : List Nat) (tempKeys : List PublicKey)
      (transfers : List TransactionOutputInformationIn),
      createTransfersLoop kiHelper account blockInfo tx globalIdxs seen
          (l₁ ++ l₂) tempKeys transfers
        = buildStepCont
            (fun tks tfs =>
              createTransfersLoop kiHelper account blockInfo tx globalIdxs seen
                l₂ tks tfs)
            (createTransfersLoop kiHelper account blockInfo tx globalIdxs seen
              l₁ tempKeys transfers)
  | [], l₂, tempKeys, transfers => by simp [createTransfersLoop, buildStepCont]
  | idx :: rest, l₂, tempKeys, transfers => by
      by_cases hcount : tx.getOutputCount ≤ idx
      · simp only [createTransfersLoop, List.cons_append, if_pos hcount]
        rfl
      · cases hout : tx.outputs.getD idx .other with
        | key k amount =>
            by_cases hhash : tx.transactionHash ∈ seen.hashes
            · simp only [createTransfersLoop, List.cons_append, if_neg hcount, hout,
                if_pos hhash]
              exact createTransfersLoop_append kiHelper account blockInfo tx
                globalIdxs seen rest l₂ tempKeys _
            · by_cases hks : k ∈ seen.keys
              · simp only [createTransfersLoop, List.cons_append, if_neg hcount,
                  hout, if_neg hhash, if_pos hks]
                rfl
              · by_cases htk : k ∈ tempKeys
                · simp only [createTransfersLoop, List.cons_append, if_neg hcount,
                    hout, if_neg hhash, if_neg hks, if_pos htk]
                  rfl
                · simp only [createTransfersLoop, List.cons_append, if_neg hcount,
                    hout, if_neg hhash, if_neg hks, if_neg htk]
                  exact createTransfersLoop_append kiHelper account blockInfo tx
                    globalIdxs seen rest l₂ _ _
        | multisignature keys req amount =>
            cases hms : msKeysCheck (tx.transactionHash ∈ seen.hashes) seen.keys
                keys tempKeys with
            | none =>
                simp only [createTransfersLoop, List.cons_append, if_neg hcount,
                  hout, hms]
                rfl
            | some tempKeys' =>
                simp only [createTransfersLoop, List.cons_append, if_neg hcount,
                  hout, hms]
                exact createTransfersLoop_append kiHelper account blockInfo tx
                  globalIdxs seen rest l₂ _ _
        | other =>
            simp only [createTransfersLoop, List.cons_append, if_neg hcount, hout]
            exact createTransfersLoop_append kiHelper account blockInfo tx
              globalIdxs seen rest l₂ _ _

theorem msKeysCheck_hashSeen (seenKeys : Finset PublicKey) :
    ∀ (keys tempKeys : List PublicKey),
      msKeysCheck true seenKeys keys tempKeys = some tempKeys
  | [], _ => rfl
  | _ :: rest, tempKeys => by
      simp only [msKeysCheck, if_pos trivial]
      exact msKeysCheck_hashSeen seenKeys rest tempKeys

theorem msKeysCheck_collides (seenKeys : Finset PublicKey) :
    ∀ (keys tempKeys : List PublicKey),
      (∃ k ∈ keys, k ∈ seenKeys ∨ k ∈ tempKeys) →
      msKeysCheck false seenKeys keys tempKeys = none
  | [], tempKeys, h => by simp at h
  | k₀ :: rest, tempKeys, h => by
      by_cases hks : k₀ ∈ seenKeys
      · simp [msKeysCheck, hks]
      · by_cases htk : k₀ ∈ tempKeys
        · simp [msKeysCheck, hks, htk]
        · have step : msKeysCheck false seenKeys (k₀ :: rest) tempKeys
              = msKeysCheck false seenKeys rest (tempKeys ++ [k₀]) := by
            simp [msKeysCheck, hks, htk]
          rw [step]
          apply msKeysCheck_collides seenKeys rest (tempKeys ++ [k₀])
          obtain ⟨k, hk, hor⟩ := h
          rcases List.mem_cons.mp hk with rfl | hkrest
          · cases hor with
            | inl h' => exact absurd h' hks
            | inr h' => exact absurd h' htk
          · exact ⟨k, hkrest, hor.imp id (fun h' => List.mem_append_left _ h')⟩

theorem createTransfersLoop_drop_head (kiHelper : Nat → PublicKey → Nat → Nat)
    (account : Nat) (blockInfo : TransactionBlockInfo) (tx : TransactionData)
    (globalIdxs : List Nat) (seen : SeenRegistry) (badIdx : Nat)
    (rest : List Nat) (tempKeys : List PublicKey)
    (transfers : List TransactionOutputInformationIn)
    (hhash : tx.transactionHash ∉ seen.hashes)
    (hlt : badIdx < tx.getOutputCount)
    (hcol : ∃ k ∈ outputKeysAt tx badIdx, k ∈ seen.keys ∨ k ∈ tempKeys) :
    createTransfersLoop kiHelper account blockInfo tx globalIdxs seen
        (badIdx :: rest) tempKeys transfers
      = (.dropped, transfers, tempKeys) := by
  have hcount : ¬tx.getOutputCount ≤ badIdx := by omega
  have hdec : (decide (tx.transactionHash ∈ seen.hashes)) = false := by
    simp [hhash]
  cases hout : tx.outputs.getD badIdx .other with
  | key k amount =>
      have hk : k ∈ seen.keys ∨ k ∈ tempKeys := by
        obtain ⟨k', hk', hor⟩ := hcol
        simp only [outputKeysAt, hout, List.mem_singleton] at hk'
        exact hk' ▸ hor
      by_cases hks : k ∈ seen.keys
      · simp only [createTransfersLoop, if_neg hcount, hout, if_neg hhash,
          if_pos hks]
      · have htk : k ∈ tempKeys := hk.resolve_left hks
        simp only [createTransfersLoop, if_neg hcount, hout, if_neg hhash,
          if_neg hks, if_pos htk]
  | multisignature keys req amount =>
      have hms : msKeysCheck false seen.keys keys tempKeys = none := by
        apply msKeysCheck_collides
        obtain ⟨k', hk', hor⟩ := hcol
        simp only [outputKeysAt, hout] at hk'
        exact ⟨k', hk', hor⟩
      simp only [createTransfersLoop, if_neg hcount, hout, hdec, hms]
  | other =>
      obtain ⟨k', hk', hor⟩ := hcol
      simp only [outputKeysAt, hout, List.not_mem_nil] at hk'

theorem createTransfersLoop_hashSeen_keys (kiHelper : Nat → PublicKey → Nat → Nat)
    (account : Nat) (blockInfo : TransactionBlockInfo) (tx : TransactionData)
    (globalIdxs : List Nat) (hs : Finset Hash) (ks ks' : Finset PublicKey)
    (hseen : tx.transactionHash ∈ hs) :
    ∀ (idxs : List Nat) (tempKeys : List PublicKey)
      (transfers : List TransactionOutputInformationIn),
      createTransfersLoop kiHelper account blockInfo tx globalIdxs ⟨hs, ks⟩
          idxs tempKeys transfers
        = createTransfersLoop kiHelper account blockInfo tx globalIdxs ⟨hs, ks'⟩
            idxs tempKeys transfers
  | [], tempKeys, transfers => rfl
  | idx :: rest, tempKeys, transfers => by
      by_cases hcount : tx.getOutputCount ≤ idx
      · simp only [createTransfersLoop, if_pos hcount]
      · cases hout : tx.outputs.getD idx .other with
        | key k amount =>
            simp only [createTransfersLoop, if_neg hcount, hout, if_pos hseen]
            exact createTransfersLoop_hashSeen_keys kiHelper account blockInfo tx
              globalIdxs hs ks ks' hseen rest tempKeys _
        | multisignature keys req amount =>
            have hdec : (decide (tx.transactionHash ∈ hs)) = true := by
              simp [hseen]
            simp only [createTransfersLoop, if_neg hcount, hout, hdec,
              msKeysCheck_hashSeen]
            exact createTransfersLoop_hashSeen_keys kiHelper account blockInfo tx
              globalIdxs hs ks ks' hseen rest tempKeys _
        | other =>
            simp only [createTransfersLoop, if_neg hcount, hout]
            exact createTransfersLoop_hashSeen_keys kiHelper account blockInfo tx
              globalIdxs hs ks ks' hseen rest tempKeys transfers

theorem createTransfersLoop_hashSeen_exit (kiHelper : Nat → PublicKey → Nat → Nat)
    (account : Nat) (blockInfo : TransactionBlockInfo) (tx : TransactionData)
    (globalIdxs : List Nat) (seen : SeenRegistry)
    (hseen : tx.transactionHash ∈ seen.hashes) :
    ∀ (idxs : List Nat) (tempKeys : List PublicKey)
      (transfers : List TransactionOutputInformationIn),
      (createTransfersLoop kiHelper account blockInfo tx globalIdxs seen
          idxs tempKeys transfers).1 ≠ .dropped
      ∧ (createTransfersLoop kiHelper account blockInfo tx globalIdxs seen
          idxs tempKeys transfers).2.2 = tempKeys
  | [], tempKeys, transfers => by simp [createTransfersLoop]
  | idx :: rest, tempKeys, transfers => by
      by_cases hcount : tx.getOutputCount ≤ idx
      · simp [createTransfersLoop, if_pos hcount]
      · cases hout : tx.outputs.getD idx .other with
        | key k amount =>
            simp only [createTransfersLoop, if_neg hcount, hout, if_pos hseen]
            exact createTransfersLoop_hashSeen_exit kiHelper account blockInfo tx
              globalIdxs seen hseen rest tempKeys _
        | multisignature keys req amount =>
            have hdec : (decide (tx.transactionHash ∈ seen.hashes)) = true := by
              simp [hseen]
            simp only [createTransfersLoop, if_neg hcount, hout, hdec,
              msKeysCheck_hashSeen]
            exact createTransfersLoop_hashSeen_exit kiHelper account blockInfo tx
              globalIdxs seen hseen rest tempKeys _
        | other =>
            simp only [createTransfersLoop, if_neg hcount, hout]
            exact createTransfersLoop_hashSeen_exit kiHelper account blockInfo tx
              globalIdxs seen hseen rest tempKeys transfers

theorem createTransfersLoop_completes (kiHelper : Nat → PublicKey → Nat → Nat)
    (account : Nat) (blockInfo : TransactionBlockInfo) (tx : TransactionData)
    (globalIdxs : List Nat) (seen : SeenRegistry)
    (hseen : tx.transactionHash ∈ seen.hashes) :
    ∀ (idxs : List Nat), (∀ i ∈ idxs, i < tx.getOutputCount) →
      ∀ (tempKeys : List PublicKey)
        (transfers : List TransactionOutputInformationIn),
        (createTransfersLoop kiHelper account blockInfo tx globalIdxs seen
          idxs tempKeys transfers).1 = .completed
  | [], _, tempKeys, transfers => rfl
  | idx :: rest, hrange, tempKeys, transfers => by
      have hcount : ¬tx.getOutputCount ≤ idx := by
        have := hrange idx (List.mem_cons_self idx rest)
        omega
      have hrest : ∀ i ∈ rest, i < tx.getOutputCount := fun i hi =>
        hrange i (List.mem_cons_of_mem idx hi)
      cases hout : tx.outputs.getD idx .other with
      | key k amount =>
          simp only [createTransfersLoop, if_neg hcount, hout, if_pos hseen]
          exact createTransfersLoop_completes kiHelper account blockInfo tx
            globalIdxs seen hseen rest hrest tempKeys _
      | multisignature keys req amount =>
          have hdec : (decide (tx.transactionHash ∈ seen.hashes)) = true := by
            simp [hseen]
          simp only [createTransfersLoop, if_neg hcount, hout, hdec,
            msKeysCheck_hashSeen]
          exact createTransfersLoop_completes kiHelper account blockInfo tx
            globalIdxs seen hseen rest hrest tempKeys _
      | other =>
          simp only [createTransfersLoop, if_neg hcount, hout]
          exact createTransfersLoop_completes kiHelper account blockInfo tx
            globalIdxs seen hseen rest hrest tempKeys transfers

theorem createTransfersLoop_transfers (kiHelper : Nat → PublicKey → Nat → Nat)
    (account : Nat) (blockInfo : TransactionBlockInfo) (tx : TransactionData)
    (globalIdxs : List Nat) (seen : SeenRegistry) :
    ∀ (idxs : List Nat) (tempKeys : List PublicKey)
      (transfers : List TransactionOutputInformationIn),
      ∃ new,
        (createTransfersLoop kiHelper account blockInfo tx globalIdxs seen
            idxs tempKeys transfers).2.1 = transfers ++ new
        ∧ ∀ t ∈ new,
            t.globalOutputIndex
              = globalIndexFor blockInfo globalIdxs t.outputInTransaction
            ∧ t.outputInTransaction ∈ idxs
            ∧ t.outputInTransaction < tx.getOutputCount
  | [], tempKeys, transfers => ⟨[], by simp [createTransfersLoop], by simp⟩
  | idx :: rest, tempKeys, transfers => by
      by_cases hcount : tx.getOutputCount ≤ idx
      · exact ⟨[], by simp [createTransfersLoop, if_pos hcount], by simp⟩
      · have hstep :
            ∀ (info : TransactionOutputInformationIn) (tks : List PublicKey),
              info.globalOutputIndex
                  = globalIndexFor blockInfo globalIdxs info.outputInTransaction →
              info.outputInTransaction = idx →
              ∃ new,
                (createTransfersLoop kiHelper account blockInfo tx globalIdxs seen
                    rest tks (transfers ++ [info])).2.1 = transfers ++ new
                ∧ ∀ t ∈ new,
                    t.globalOutputIndex
                      = globalIndexFor blockInfo globalIdxs t.outputInTransaction
                    ∧ t.outputInTransaction ∈ idx :: rest
                    ∧ t.outputInTransaction < tx.getOutputCount := by
          intro info tks hgi hidx
          obtain ⟨new', hnew', hprop⟩ := createTransfersLoop_transfers kiHelper
            account blockInfo tx globalIdxs seen rest tks (transfers ++ [info])
          refine ⟨info :: new', by simpa using hnew', ?_⟩
          intro t ht
          rcases List.mem_cons.mp ht with rfl | ht'
          · exact ⟨hgi, by simp [hidx], by rw [hidx]; omega⟩
          · obtain ⟨h1, h2, h3⟩ := hprop t ht'
            exact ⟨h1, List.mem_cons_of_mem idx h2, h3⟩
        cases hout : tx.outputs.getD idx .other with
        | key k amount =>
            by_cases hhash : tx.transactionHash ∈ seen.hashes
            · simp only [createTransfersLoop, if_neg hcount, hout, if_pos hhash]
              exact hstep _ _ rfl rfl
            · by_cases hks : k ∈ seen.keys
              · exact ⟨[], by simp only [createTransfersLoop, if_neg hcount, hout,
                  if_neg hhash, if_pos hks, List.append_nil], by simp⟩
              · by_cases htk : k ∈ tempKeys
                · exact ⟨[], by simp only [createTransfersLoop, if_neg hcount,
                    hout, if_neg hhash, if_neg hks, if_pos htk, List.append_nil],
                    by simp⟩
                · simp only [createTransfersLoop, if_neg hcount, hout,
                    if_neg hhash, if_neg hks, if_neg htk]
                  exact hstep _ _ rfl rfl
        | multisignature keys req amount =>
            cases hms : msKeysCheck (tx.transactionHash ∈ seen.hashes) seen.keys
                keys tempKeys with
            | none =>
                exact ⟨[], by simp only [createTransfersLoop, if_neg hcount, hout,
                  hms, List.append_nil], by simp⟩
            | some tempKeys' =>
                simp only [createTransfersLoop, if_neg hcount, hout, hms]
                exact hstep _ _ rfl rfl
        | other =>
            simp only [createTransfersLoop, if_neg hcount, hout]
            obtain ⟨new', hnew', hprop⟩ := createTransfersLoop_transfers kiHelper
              account blockInfo tx globalIdxs seen rest tempKeys transfers
            refine ⟨new', hnew', ?_⟩
            intro t ht
            obtain ⟨h1, h2, h3⟩ := hprop t ht
            exact ⟨h1, List.mem_cons_of_mem idx h2, h3⟩

/-! ### Claim theorems about the transfer builder -/

/-- C1 as stated is false: at this concrete input the transaction hash `5` is
not in `transactions_hash_seen`, the owned Key output at index 1 carries key
`42` which is already in `public_keys_seen` (placed there by a different
transaction), the call returns the success error code — yet the transfer
already built for the earlier owned output 0 remains in the caller's vector,
so the call does *not* produce "no transfers at all". -/
theorem c1_counterexample :
    (5 : Hash) ∉ (SeenRegistry.mk ∅ {42}).hashes
    ∧ (42 : PublicKey) ∈ (SeenRegistry.mk ∅ {42}).keys
    ∧ outputKeysAt ⟨9, 5, [.key 7 10, .key 42 20]⟩ 1 = [42]
    ∧ (createTransfers (fun _ _ _ => 0) 0 ⟨100, 0, 0⟩
        ⟨9, 5, [.key 7 10, .key 42 20]⟩ [0, 1] [3, 4] ⟨∅, {42}⟩).ec = .ok
    ∧ (createTransfers (fun _ _ _ => 0) 0 ⟨100, 0, 0⟩
        ⟨9, 5, [.key 7 10, .key 42 20]⟩ [0, 1] [3, 4] ⟨∅, {42}⟩).transfers
        ≠ [] := by
  decide

/-- C1 amended: when the transaction hash is not yet in
`transactions_hash_seen`, the owned indices split as `preIdxs ++ badIdx ::
postIdxs` where processing `preIdxs` completes (producing transfers `tfs` and
scratchpad `tks`) and the output at `badIdx` is in range and carries a key
that is already in `public_keys_seen` or already staged in `temp_keys`, the
call returns the success error code, stops at the colliding output
(producing no transfer for it or for any later output) and leaves the
registry unchanged — but the transfers already appended for the outputs
examined before the colliding one remain in the caller's vector. -/
theorem c1_amended_partial_drop (kiHelper : Nat → PublicKey → Nat → Nat)
    (account : Nat) (blockInfo : TransactionBlockInfo) (tx : TransactionData)
    (globalIdxs : List Nat) (seen : SeenRegistry) (preIdxs : List Nat)
    (badIdx : Nat) (postIdxs : List Nat)
    (tfs : List TransactionOutputInformationIn) (tks : List PublicKey)
    (hhash : tx.transactionHash ∉ seen.hashes)
    (hloop : createTransfersLoop kiHelper account blockInfo tx globalIdxs seen
       preIdxs [] [] = (.completed, tfs, tks))
    (hlt : badIdx < tx.getOutputCount)
    (hcol : ∃ k ∈ outputKeysAt tx badIdx, k ∈ seen.keys ∨ k ∈ tks) :
    createTransfers kiHelper account blockInfo tx
        (preIdxs ++ badIdx :: postIdxs) globalIdxs seen
      = ⟨.ok, tfs, seen⟩ := by
  unfold createTransfers
  rw [createTransfersLoop_append, hloop]
  have hd := createTransfersLoop_drop_head kiHelper account blockInfo tx
    globalIdxs seen badIdx postIdxs tks tfs hhash hlt hcol
  simp [buildStepCont, hd]

/-- Witness for the amended C1 at a concrete input: the earlier output's
transfer survives the drop and the registry stays `⟨∅, {42}⟩`. -/
theorem c1_amended_partial_drop_witness :
    createTransfers (fun _ _ _ => 0) 0 ⟨100, 0, 0⟩
        ⟨9, 5, [.key 7 10, .key 42 20]⟩ ([0] ++ 1 :: []) [3, 4] ⟨∅, {42}⟩
      = ⟨.ok, [⟨.key, 9, 0, 3, 10, 7, 0, 0⟩], ⟨∅, {42}⟩⟩ :=
  c1_amended_partial_drop (fun _ _ _ => 0) 0 ⟨100, 0, 0⟩
    ⟨9, 5, [.key 7 10, .key 42 20]⟩ [3, 4] ⟨∅, {42}⟩ [0] 1 []
    [⟨.key, 9, 0, 3, 10, 7, 0, 0⟩] [7] (by decide) (by decide) (by decide)
    ⟨42, by decide, Or.inl (by decide)⟩

/-- C5: a completed `createTransfers` on a transaction not previously seen
merges atomically — the hash joins `transactions_hash_seen` and exactly the
staged `temp_keys` join `public_keys_seen`; a duplicate-key drop leaves the
registry untouched (neither the hash nor any key of the dropped transaction
is added); and both `createTransfers` and `addPublicKeysSeen` only ever grow
the registry. -/
theorem c5_registry_merge (kiHelper : Nat → PublicKey → Nat → Nat)
    (account : Nat) (blockInfo : TransactionBlockInfo) (tx : TransactionData)
    (outputs globalIdxs : List Nat) (seen : SeenRegistry)
    (h0 : Hash) (k0 : PublicKey) :
    (seen.hashes ⊆ (createTransfers kiHelper account blockInfo tx outputs
        globalIdxs seen).seen.hashes
      ∧ seen.keys ⊆ (createTransfers kiHelper account blockInfo tx outputs
        globalIdxs seen).seen.keys)
    ∧ (seen.hashes ⊆ (addPublicKeysSeen seen h0 k0).hashes
      ∧ seen.keys ⊆ (addPublicKeysSeen seen h0 k0).keys)
    ∧ (∀ tfs tks, tx.transactionHash ∉ seen.hashes →
        createTransfersLoop kiHelper account blockInfo tx globalIdxs seen
            outputs [] [] = (.completed, tfs, tks) →
        (createTransfers kiHelper account blockInfo tx outputs globalIdxs
            seen).seen
          = ⟨insert tx.transactionHash seen.hashes,
              seen.keys ∪ tks.toFinset⟩)
    ∧ (∀ tfs tks,
        createTransfersLoop kiHelper account blockInfo tx globalIdxs seen
            outputs [] [] = (.dropped, tfs, tks) →
        (createTransfers kiHelper account blockInfo tx outputs globalIdxs
            seen).seen = seen) := by
  refine ⟨?_, ⟨Finset.subset_insert _ _, Finset.subset_insert _ _⟩, ?_, ?_⟩
  · unfold createTransfers
    rcases createTransfersLoop kiHelper account blockInfo tx globalIdxs seen
        outputs [] [] with ⟨exit, tfs0, tks0⟩
    cases exit
    · exact ⟨Finset.subset_insert _ _, Finset.subset_union_left⟩
    · exact ⟨Finset.Subset.refl _, Finset.Subset.refl _⟩
    · exact ⟨Finset.Subset.refl _, Finset.Subset.refl _⟩
  · intro tfs tks _ hcomp
    simp [createTransfers, hcomp]
  · intro tfs tks hdrop
    simp [createTransfers, hdrop]

/-- Witness for C5 at concrete inputs: a completed build of the unseen
transaction `5` staging keys `[7, 8]` extends the registry to
`⟨insert 5 ∅, {42} ∪ {7, 8}⟩`, and a dropped build leaves `⟨∅, {42}⟩`
unchanged. -/
theorem c5_registry_merge_witness :
    (createTransfers (fun _ _ _ => 0) 0 ⟨100, 0, 0⟩
        ⟨9, 5, [.key 7 10, .key 8 20]⟩ [0, 1] [3, 4] ⟨∅, {42}⟩).seen
      = ⟨insert (5 : Hash) ∅, {42} ∪ ([7, 8] : List PublicKey).toFinset⟩
    ∧ (createTransfers (fun _ _ _ => 0) 0 ⟨100, 0, 0⟩
        ⟨9, 5, [.key 7 10, .key 42 20]⟩ [0, 1] [3, 4] ⟨∅, {42}⟩).seen
      = ⟨∅, {42}⟩ :=
  ⟨(c5_registry_merge (fun _ _ _ => 0) 0 ⟨100, 0, 0⟩
      ⟨9, 5, [.key 7 10, .key 8 20]⟩ [0, 1] [3, 4] ⟨∅, {42}⟩ 0 0).2.2.1
      [⟨.key, 9, 0, 3, 10, 7, 0, 0⟩, ⟨.key, 9, 1, 4, 20, 8, 0, 0⟩] [7, 8]
      (by decide) (by decide),
    (c5_registry_merge (fun _ _ _ => 0) 0 ⟨100, 0, 0⟩
      ⟨9, 5, [.key 7 10, .key 42 20]⟩ [0, 1] [3, 4] ⟨∅, {42}⟩ 0 0).2.2.2
      [⟨.key, 9, 0, 3, 10, 7, 0, 0⟩] [7] (by decide)⟩

/-- C9: in a `createTransfers` call at the unconfirmed sentinel height every
emitted `TransferInfo` carries the `UNCONFIRMED_GLOBAL` sentinel as its
global output index; at a confirmed height every emitted `TransferInfo`
carries `globalIdxs[idx]` for its own output index `idx` (which is always in
range); and an owned index `≥ output_count` reached by the loop (the owned
indices before it having completed) fails with `argument_out_of_domain`. -/
theorem c9_global_index_sentinel (kiHelper : Nat → PublicKey → Nat → Nat)
    (account : Nat) (blockInfo : TransactionBlockInfo) (tx : TransactionData)
    (outputs globalIdxs : List Nat) (seen : SeenRegistry) :
    (blockInfo.height = WALLET_UNCONFIRMED_TRANSACTION_HEIGHT →
      ∀ t ∈ (createTransfers kiHelper account blockInfo tx outputs globalIdxs
          seen).transfers,
        t.globalOutputIndex = UNCONFIRMED_TRANSACTION_GLOBAL_OUTPUT_INDEX)
    ∧ (blockInfo.height ≠ WALLET_UNCONFIRMED_TRANSACTION_HEIGHT →
      ∀ t ∈ (createTransfers kiHelper account blockInfo tx outputs globalIdxs
          seen).transfers,
        t.globalOutputIndex = globalIdxs.getD t.outputInTransaction 0
        ∧ t.outputInTransaction < tx.getOutputCount)
    ∧ (∀ preIdxs badIdx postIdxs tfs tks,
        outputs = preIdxs ++ badIdx :: postIdxs →
        createTransfersLoop kiHelper account blockInfo tx globalIdxs seen
            preIdxs [] [] = (.completed, tfs, tks) →
        tx.getOutputCount ≤ badIdx →
        (createTransfers kiHelper account blockInfo tx outputs globalIdxs
            seen).ec = .argumentOutOfDomain) := by
  have htfs : (createTransfers kiHelper account blockInfo tx outputs globalIdxs
      seen).transfers
      = (createTransfersLoop kiHelper account blockInfo tx globalIdxs seen
          outputs [] []).2.1 := by
    unfold createTransfers
    rcases createTransfersLoop kiHelper account blockInfo tx globalIdxs seen
        outputs [] [] with ⟨exit, tfs0, tks0⟩
    cases exit <;> rfl
  have hall : ∀ t ∈ (createTransfers kiHelper account blockInfo tx outputs
      globalIdxs seen).transfers,
      t.globalOutputIndex = globalIndexFor blockInfo globalIdxs
        t.outputInTransaction
      ∧ t.outputInTransaction < tx.getOutputCount := by
    obtain ⟨new, hnew, hprop⟩ := createTransfersLoop_transfers kiHelper account
      blockInfo tx globalIdxs seen outputs [] []
    intro t ht
    rw [htfs, hnew] at ht
    simp only [List.nil_append] at ht
    obtain ⟨h1, _, h3⟩ := hprop t ht
    exact ⟨h1, h3⟩
  refine ⟨?_, ?_, ?_⟩
  · intro hunc t ht
    obtain ⟨h1, _⟩ := hall t ht
    rw [h1]
    simp [globalIndexFor, hunc]
  · intro hconf t ht
    obtain ⟨h1, h2⟩ := hall t ht
    rw [h1]
    exact ⟨by simp [globalIndexFor, hconf], h2⟩
  · intro preIdxs badIdx postIdxs tfs tks houts hcomp hge
    subst houts
    unfold createTransfers
    rw [createTransfersLoop_append, hcomp]
    have hd : createTransfersLoop kiHelper account blockInfo tx globalIdxs seen
        (badIdx :: postIdxs) tks tfs = (.outOfDomain, tfs, tks) := by
      simp only [createTransfersLoop, if_pos hge]
    simp [buildStepCont, hd]

/-- Witness for C9 at concrete inputs: an unconfirmed build emits only the
sentinel index, a confirmed build emits `globalIdxs[idx]`, and an owned index
1 against a single-output transaction fails with `argument_out_of_domain`. -/
theorem c9_global_index_sentinel_witness :
    (∀ t ∈ (createTransfers (fun _ _ _ => 0) 0
        ⟨WALLET_UNCONFIRMED_TRANSACTION_HEIGHT, 0, 0⟩ ⟨9, 5, [.key 7 10]⟩
        [0] [] ⟨∅, ∅⟩).transfers,
      t.globalOutputIndex = UNCONFIRMED_TRANSACTION_GLOBAL_OUTPUT_INDEX)
    ∧ (∀ t ∈ (createTransfers (fun _ _ _ => 0) 0 ⟨100, 0, 0⟩
        ⟨9, 5, [.key 7 10]⟩ [0] [3] ⟨∅, ∅⟩).transfers,
      t.globalOutputIndex = [3].getD t.outputInTransaction 0
      ∧ t.outputInTransaction < TransactionData.getOutputCount ⟨9, 5, [.key 7 10]⟩)
    ∧ (createTransfers (fun _ _ _ => 0) 0 ⟨100, 0, 0⟩ ⟨9, 5, [.key 7 10]⟩
        [1] [3] ⟨∅, ∅⟩).ec = .argumentOutOfDomain :=
  ⟨(c9_global_index_sentinel (fun _ _ _ => 0) 0
      ⟨WALLET_UNCONFIRMED_TRANSACTION_HEIGHT, 0, 0⟩ ⟨9, 5, [.key 7 10]⟩
      [0] [] ⟨∅, ∅⟩).1 rfl,
    (c9_global_index_sentinel (fun _ _ _ => 0) 0 ⟨100, 0, 0⟩
      ⟨9, 5, [.key 7 10]⟩ [0] [3] ⟨∅, ∅⟩).2.1 (by decide),
    (c9_global_index_sentinel (fun _ _ _ => 0) 0 ⟨100, 0, 0⟩
      ⟨9, 5, [.key 7 10]⟩ [1] [3] ⟨∅, ∅⟩).2.2 [] 1 [] [] []
      (by decide) (by decide) (by decide)⟩

/-- C10 (implicit): when the transaction hash is already in
`transactions_hash_seen`, every duplicate-output-key check is skipped — the
loop can never take the duplicate-key drop exit, the produced error code and
transfers do not depend on the contents of `public_keys_seen` at all, and a
re-processed transaction with in-range owned indices builds successfully,
leaving the registry exactly as it was. -/
theorem c10_seen_hash_skips_checks (kiHelper : Nat → PublicKey → Nat → Nat)
    (account : Nat) (blockInfo : TransactionBlockInfo) (tx : TransactionData)
    (outputs globalIdxs : List Nat) (hs : Finset Hash)
    (ks : Finset PublicKey) (hseen : tx.transactionHash ∈ hs) :
    ((createTransfersLoop kiHelper account blockInfo tx globalIdxs ⟨hs, ks⟩
        outputs [] []).1 ≠ .dropped)
    ∧ (∀ ks' : Finset PublicKey,
        (createTransfers kiHelper account blockInfo tx outputs globalIdxs
            ⟨hs, ks'⟩).ec
          = (createTransfers kiHelper account blockInfo tx outputs globalIdxs
              ⟨hs, ks⟩).ec
        ∧ (createTransfers kiHelper account blockInfo tx outputs globalIdxs
            ⟨hs, ks'⟩).transfers
          = (createTransfers kiHelper account blockInfo tx outputs globalIdxs
              ⟨hs, ks⟩).transfers)
    ∧ ((∀ i ∈ outputs, i < tx.getOutputCount) →
        (createTransfers kiHelper account blockInfo tx outputs globalIdxs
            ⟨hs, ks⟩).ec = .ok
        ∧ (createTransfers kiHelper account blockInfo tx outputs globalIdxs
            ⟨hs, ks⟩).seen = ⟨hs, ks⟩) := by
  refine ⟨(createTransfersLoop_hashSeen_exit kiHelper account blockInfo tx
    globalIdxs ⟨hs, ks⟩ hseen outputs [] []).1, ?_, ?_⟩
  · intro ks'
    unfold createTransfers
    rw [createTransfersLoop_hashSeen_keys kiHelper account blockInfo tx
      globalIdxs hs ks' ks hseen outputs [] []]
    rcases createTransfersLoop kiHelper account blockInfo tx globalIdxs
        ⟨hs, ks⟩ outputs [] [] with ⟨exit, tfs0, tks0⟩
    cases exit <;> exact ⟨rfl, rfl⟩
  · intro hrange
    rcases hloop : createTransfersLoop kiHelper account blockInfo tx globalIdxs
        ⟨hs, ks⟩ outputs [] [] with ⟨exit, tfs0, tks0⟩
    have hc := createTransfersLoop_completes kiHelper account blockInfo tx
      globalIdxs ⟨hs, ks⟩ hseen outputs hrange [] []
    rw [hloop] at hc
    have hk := (createTransfersLoop_hashSeen_exit kiHelper account blockInfo tx
      globalIdxs ⟨hs, ks⟩ hseen outputs [] []).2
    rw [hloop] at hk
    simp only at hc hk
    subst hc
    subst hk
    constructor
    · simp [createTransfers, hloop]
    · simp [createTransfers, hloop, Finset.insert_eq_self.mpr hseen]

/-- Witness for C10 at a concrete input: transaction `5` is already seen, its
outputs collide with the registry and with themselves, yet the build succeeds
with both transfers and leaves the registry unchanged. -/
theorem c10_seen_hash_skips_checks_witness :
    ((createTransfersLoop (fun _ _ _ => 0) 0 ⟨100, 0, 0⟩
        ⟨9, 5, [.key 42 10, .key 42 20]⟩ [3, 4] ⟨{5}, {42}⟩ [0, 1] [] []).1
      ≠ .dropped)
    ∧ (createTransfers (fun _ _ _ => 0) 0 ⟨100, 0, 0⟩
        ⟨9, 5, [.key 42 10, .key 42 20]⟩ [0, 1] [3, 4] ⟨{5}, ∅⟩).transfers
      = (createTransfers (fun _ _ _ => 0) 0 ⟨100, 0, 0⟩
          ⟨9, 5, [.key 42 10, .key 42 20]⟩ [0, 1] [3, 4] ⟨{5}, {42}⟩).transfers
    ∧ (createTransfers (fun _ _ _ => 0) 0 ⟨100, 0, 0⟩
        ⟨9, 5, [.key 42 10, .key 42 20]⟩ [0, 1] [3, 4] ⟨{5}, {42}⟩).ec = .ok
    ∧ (createTransfers (fun _ _ _ => 0) 0 ⟨100, 0, 0⟩
        ⟨9, 5, [.key 42 10, .key 42 20]⟩ [0, 1] [3, 4] ⟨{5}, {42}⟩).seen
      = ⟨{5}, {42}⟩ :=
  ⟨(c10_seen_hash_skips_checks (fun _ _ _ => 0) 0 ⟨100, 0, 0⟩
      ⟨9, 5, [.key 42 10, .key 42 20]⟩ [0, 1] [3, 4] {5} {42}
      (by decide)).1,
    ((c10_seen_hash_skips_checks (fun _ _ _ => 0) 0 ⟨100, 0, 0⟩
      ⟨9, 5, [.key 42 10, .key 42 20]⟩ [0, 1] [3, 4] {5} {42}
      (by decide)).2.1 ∅).2,
    ((c10_seen_hash_skips_checks (fun _ _ _ => 0) 0 ⟨100, 0, 0⟩
      ⟨9, 5, [.key 42 10, .key 42 20]⟩ [0, 1] [3, 4] {5} {42}
      (by decide)).2.2 (by decide)).1,
    ((c10_seen_hash_skips_checks (fun _ _ _ => 0) 0 ⟨100, 0, 0⟩
      ⟨9, 5, [.key 42 10, .key 42 20]⟩ [0, 1] [3, 4] {5} {42}
      (by decide)).2.2 (by decide)).2⟩

/-! ## Consumer facade: subscriptions and sync-start tracking
(constructor, `addSubscription`, `removeSubscription`, `updateSyncStart`,
`getSyncStart`; lines 118-215) -/

/-- `SynchronizationStart`: per-subscription scanning lower bound
(`uint64_t` height and timestamp). -/
structure SynchronizationStart where
  height : Nat
  timestamp : Nat
deriving DecidableEq

/-- `std::numeric_limits<uint64_t>::max()`. -/
def UINT64_MAX : Nat := 2 ^ 64 - 1

/-- The part of `AccountSubscription` the facade reads: the spend public key
(the map key), the view secret key (checked on addition) and the
subscription's own sync start.  Modelled from the spec: `TransfersSubscription
::getSyncStart` is outside the given source file; per the spec it reports the
subscription's own per-account lower bound, fixed at creation. -/
structure SubscriptionRec where
  spendPublicKey : PublicKey
  viewSecretKey : SecretKey
  syncStart : SynchronizationStart
deriving DecidableEq

/-- The consumer state the sync-start claims touch: the bound view secret,
`m_subscriptions` (spend key ↦ subscription sync start, as an association
list with distinct keys) and the cached `m_syncStart`. -/
structure ConsumerState where
  viewSecret : SecretKey
  subscriptions : List (PublicKey × SynchronizationStart)
  syncStart : SynchronizationStart
deriving DecidableEq

/-- `TransfersConsumer::updateSyncStart` (lines 196-210): full recompute,
starting from `(uint64 max, uint64 max)` and taking the component-wise
minimum over all stored subscriptions. -/
def updateSyncStart (subs : List (PublicKey × SynchronizationStart)) :
    SynchronizationStart :=
  subs.foldl
    (fun s kv => ⟨min s.height kv.2.height, min s.timestamp kv.2.timestamp⟩)
    ⟨UINT64_MAX, UINT64_MAX⟩

/-- The constructor (lines 118-129): no subscriptions; it calls
`updateSyncStart` on the empty map. -/
def ConsumerState.construct (viewSecret : SecretKey) : ConsumerState :=
  ⟨viewSecret, [], updateSyncStart []⟩

/-- `TransfersConsumer::addSubscription` (lines 131-152): throw on view
secret mismatch; no-op when the spend key is present; otherwise insert and
update `m_syncStart` incrementally — the first subscription's start is taken
as is, later ones are combined by component-wise `min`. -/
def ConsumerState.addSubscription (st : ConsumerState) (sub : SubscriptionRec) :
    Except Unit ConsumerState :=
  if sub.viewSecretKey ≠ st.viewSecret then .error ()
  else if (st.subscriptions.lookup sub.spendPublicKey).isSome then .ok st
  else
    let subs' := st.subscriptions ++ [(sub.spendPublicKey, sub.syncStart)]
    let sync' :=
      if st.subscriptions.isEmpty then sub.syncStart
      else ⟨min st.syncStart.height sub.syncStart.height,
            min st.syncStart.timestamp sub.syncStart.timestamp⟩
    .ok ⟨st.viewSecret, subs', sync'⟩

/-- `TransfersConsumer::removeSubscription` (lines 154-162): erase the spend
key, recompute `m_syncStart` from scratch, return whether the map became
empty. -/
def ConsumerState.removeSubscription (st : ConsumerState)
    (spendPublicKey : PublicKey) : ConsumerState × Bool :=
  let subs' := st.subscriptions.filter (fun kv => kv.1 ≠ spendPublicKey)
  (⟨st.viewSecret, subs', updateSyncStart subs'⟩, subs'.isEmpty)

/-- `TransfersConsumer::getSyncStart` (lines 212-215). -/
def ConsumerState.getSyncStart (st : ConsumerState) : SynchronizationStart :=
  st.syncStart

/-- One facade call of the kind C7 quantifies over. -/
inductive ConsumerOp where
  | add (sub : SubscriptionRec)
  | remove (spendPublicKey : PublicKey)
deriving DecidableEq

/-- Run a sequence of facade calls; a throwing `addSubscription` leaves the
state unchanged (the throw happens before any mutation). -/
def applyOps (st : ConsumerState) : List ConsumerOp → ConsumerState
  | [] => st
  | .add s :: rest =>
      applyOps
        (match st.addSubscription s with
          | .ok st' => st'
          | .error _ => st) rest
  | .remove k :: rest => applyOps (st.removeSubscription k).1 rest

/-- Specification-side aggregate: the component-wise minimum (height and
timestamp independently) of the stored subscriptions' sync starts,
`(uint64 max, uint64 max)` when none remain. -/
def specSyncMin (subs : List (PublicKey × SynchronizationStart)) :
    SynchronizationStart :=
  ⟨(subs.map (fun kv => kv.2.height)).foldr min UINT64_MAX,
   (subs.map (fun kv => kv.2.timestamp)).foldr min UINT64_MAX⟩

/-- A subscription start representable in `uint64_t` (heights and timestamps
are `uint64_t` in the source). -/
def ConsumerOp.startBounded : ConsumerOp → Bool
  | .add sub =>
      decide (sub.syncStart.height ≤ UINT64_MAX)
        && decide (sub.syncStart.timestamp ≤ UINT64_MAX)
  | .remove _ => true

/-! ### Sync-start lemmas -/

theorem foldr_min_out : ∀ (l : List Nat) (a b : Nat),
    min (l.foldr min a) b = l.foldr min (min a b)
  | [], _, _ => rfl
  | x :: l, a, b => by
      simp only [List.foldr_cons]
      rw [Nat.min_assoc, foldr_min_out l a b]

theorem foldl_min_pair :
    ∀ (subs : List (PublicKey × SynchronizationStart)) (a b : Nat),
      subs.foldl
          (fun s kv =>
            (⟨min s.height kv.2.height, min s.timestamp kv.2.timestamp⟩ :
              SynchronizationStart))
          (⟨a, b⟩ : SynchronizationStart)
        = (⟨(subs.map (fun kv => kv.2.height)).foldr min a,
            (subs.map (fun kv => kv.2.timestamp)).foldr min b⟩ :
            SynchronizationStart)
  | [], a, b => rfl
  | kv :: rest, a, b => by
      simp only [List.foldl_cons, List.map_cons, List.foldr_cons]
      rw [foldl_min_pair rest]
      simp only [SynchronizationStart.mk.injEq]
      constructor
      · rw [← foldr_min_out]
        exact Nat.min_comm _ _
      · rw [← foldr_min_out]
        exact Nat.min_comm _ _

theorem updateSyncStart_eq_spec (subs : List (PublicKey × SynchronizationStart)) :
    updateSyncStart subs = specSyncMin subs := by
  unfold updateSyncStart specSyncMin
  exact foldl_min_pair subs UINT64_MAX UINT64_MAX

/-- The invariant C7 rests on: the cached `m_syncStart` equals the spec-side
component-wise minimum, and every stored start fits in `uint64_t`. -/
def syncInvariant (st : ConsumerState) : Prop :=
  st.syncStart = specSyncMin st.subscriptions
    ∧ ∀ kv ∈ st.subscriptions,
        kv.2.height ≤ UINT64_MAX ∧ kv.2.timestamp ≤ UINT64_MAX

theorem specSyncMin_append_one (subs : List (PublicKey × SynchronizationStart))
    (k : PublicKey) (s : SynchronizationStart)
    (hb : s.height ≤ UINT64_MAX ∧ s.timestamp ≤ UINT64_MAX) :
    specSyncMin (subs ++ [(k, s)])
      = ⟨min (specSyncMin subs).height s.height,
          min (specSyncMin subs).timestamp s.timestamp⟩ := by
  unfold specSyncMin
  simp only [List.map_append, List.foldr_append, List.map_cons, List.map_nil,
    List.foldr_cons, List.foldr_nil]
  rw [Nat.min_eq_left hb.1, Nat.min_eq_left hb.2]
  simp only [SynchronizationStart.mk.injEq]
  constructor
  · rw [foldr_min_out, Nat.min_comm UINT64_MAX s.height,
      Nat.min_eq_left hb.1]
  · rw [foldr_min_out, Nat.min_comm UINT64_MAX s.timestamp,
      Nat.min_eq_left hb.2]

theorem addSubscription_invariant (st : ConsumerState) (sub : SubscriptionRec)
    (hinv : syncInvariant st)
    (hb : sub.syncStart.height ≤ UINT64_MAX
      ∧ sub.syncStart.timestamp ≤ UINT64_MAX) :
    syncInvariant
      (match st.addSubscription sub with
        | .ok st' => st'
        | .error _ => st) := by
  unfold ConsumerState.addSubscription
  by_cases hv : sub.viewSecretKey ≠ st.viewSecret
  · simp only [if_pos hv]
    exact hinv
  · simp only [if_neg hv]
    by_cases hmem : (st.subscriptions.lookup sub.spendPublicKey).isSome
    · simp only [if_pos hmem]
      exact hinv
    · simp only [if_pos, if_neg hmem]
      constructor
      · show (if st.subscriptions.isEmpty then sub.syncStart else _) = _
        rw [specSyncMin_append_one st.subscriptions sub.spendPublicKey
          sub.syncStart hb, ← hinv.1]
        by_cases hemp : st.subscriptions.isEmpty
        · have : st.subscriptions = [] := List.isEmpty_iff.mp hemp
          rw [if_pos hemp]
          have hsync : st.syncStart = ⟨UINT64_MAX, UINT64_MAX⟩ := by
            rw [hinv.1, this]; rfl
          rw [hsync]
          show sub.syncStart
            = ⟨min UINT64_MAX sub.syncStart.height,
                min UINT64_MAX sub.syncStart.timestamp⟩
          rw [Nat.min_eq_right hb.1, Nat.min_eq_right hb.2]
        · rw [if_neg hemp]
      · intro kv hkv
        rcases List.mem_append.mp hkv with h | h
        · exact hinv.2 kv h
        · rw [List.mem_singleton.mp h]
          exact hb

theorem removeSubscription_invariant (st : ConsumerState) (k : PublicKey)
    (hinv : syncInvariant st) :
    syncInvariant (st.removeSubscription k).1 := by
  unfold ConsumerState.removeSubscription
  constructor
  · exact updateSyncStart_eq_spec _
  · intro kv hkv
    exact hinv.2 kv (List.mem_of_mem_filter hkv)

theorem applyOps_invariant :
    ∀ (ops : List ConsumerOp) (st : ConsumerState), syncInvariant st →
      (∀ op ∈ ops, op.startBounded = true) →
      syncInvariant (applyOps st ops)
  | [], st, hinv, _ => hinv
  | .add s :: rest, st, hinv, hb => by
      have hs := hb (.add s) (List.mem_cons_self _ _)
      simp only [ConsumerOp.startBounded, Bool.and_eq_true,
        decide_eq_true_eq] at hs
      exact applyOps_invariant rest _
        (addSubscription_invariant st s hinv hs)
        (fun op hop => hb op (List.mem_cons_of_mem _ hop))
  | .remove k :: rest, st, hinv, hb =>
      applyOps_invariant rest _
        (removeSubscription_invariant st k hinv)
        (fun op hop => hb op (List.mem_cons_of_mem _ hop))

/-- C7: after any sequence of `addSubscription` / `removeSubscription` calls
(whose starts fit in `uint64_t`), `getSyncStart` returns the component-wise
minimum — height and timestamp independently — of the currently stored
subscriptions' sync starts, and `(uint64 max, uint64 max)` when none remain,
including immediately after construction. -/
theorem c7_sync_start_component_min (viewSecret : SecretKey)
    (ops : List ConsumerOp)
    (hb : ∀ op ∈ ops, op.startBounded = true) :
    (ConsumerState.construct viewSecret).getSyncStart
        = ⟨UINT64_MAX, UINT64_MAX⟩
    ∧ (applyOps (ConsumerState.construct viewSecret) ops).getSyncStart
        = specSyncMin
            (applyOps (ConsumerState.construct viewSecret) ops).subscriptions
    ∧ ((applyOps (ConsumerState.construct viewSecret) ops).subscriptions = []
        → (applyOps (ConsumerState.construct viewSecret) ops).getSyncStart
            = ⟨UINT64_MAX, UINT64_MAX⟩) := by
  have hinit : syncInvariant (ConsumerState.construct viewSecret) :=
    ⟨rfl, by simp [ConsumerState.construct]⟩
  have hfin := applyOps_invariant ops _ hinit hb
  refine ⟨rfl, hfin.1, fun hemp => ?_⟩
  rw [ConsumerState.getSyncStart, hfin.1, hemp]
  rfl

/-- Witness for C7 at a concrete call sequence: add `(100, 200)` and
`(50, 300)`, remove the first — the aggregate is the component-wise minimum
`(50, 300)` of the survivor. -/
theorem c7_sync_start_component_min_witness :
    (applyOps (ConsumerState.construct 3)
        [.add ⟨1, 3, ⟨100, 200⟩⟩, .add ⟨2, 3, ⟨50, 300⟩⟩, .remove 1]).getSyncStart
      = specSyncMin
          (applyOps (ConsumerState.construct 3)
            [.add ⟨1, 3, ⟨100, 200⟩⟩, .add ⟨2, 3, ⟨50, 300⟩⟩, .remove 1]).subscriptions :=
  (c7_sync_start_component_min 3
    [.add ⟨1, 3, ⟨100, 200⟩⟩, .add ⟨2, 3, ⟨50, 300⟩⟩, .remove 1]
    (by decide)).2.1

/-! ## Worker-count computation of `onNewBlocks` (lines 242-245) -/

/-- The number of worker threads `onNewBlocks` spawns, as a function of what
`std::thread::hardware_concurrency()` reports: the reported value, with a
fallback to 2 only when it reports 0. -/
def workerCount (hardwareConcurrency : Nat) : Nat :=
  if hardwareConcurrency = 0 then 2 else hardwareConcurrency

/-- C8 as stated is false at hardware parallelism 1: the code spawns 1 worker
(`hardware_concurrency()` is only replaced when it is 0), while
`max(2, 1) = 2`. -/
theorem c8_counterexample : workerCount 1 ≠ max 2 1 := by decide

/-- C8 amended: the worker count equals `max(2, p)` for every reported
parallelism `p` except `p = 1`, where the code spawns a single worker. -/
theorem c8_worker_count (p : Nat) :
    (p ≠ 1 → workerCount p = max 2 p) ∧ workerCount 1 = 1 := by
  constructor
  · intro hp
    unfold workerCount
    by_cases h0 : p = 0
    · subst h0; rfl
    · rw [if_neg h0]
      omega
  · rfl

/-- Witness for the amended C8 at `p = 4`. -/
theorem c8_worker_count_witness : workerCount 4 = max 2 4 :=
  (c8_worker_count 4).1 (by decide)

/-! ## Per-transaction apply: `processOutputs` (lines 649-676)

The subscription's container (`TransfersSubscription` /
`ITransfersContainer`) is outside the given source file; the consumer only
calls `getTransactionInformation` (does the container know this hash, and at
which block height), `addTransaction` (whose boolean result says whether
anything was recorded — per the spec a subscription may ignore a transaction,
so that decision is a parameter here), and `markTransactionConfirmed`.
Modelled from the spec: the container stores hash ↦ height and
`markTransactionConfirmed` rewrites the stored height of the hash. -/

/-- A subscription container, as far as the consumer observes it:
transaction hash ↦ recorded block height. -/
abbrev ContainerState := List (Hash × Nat)

/-- The calls the consumer makes into one subscription. -/
inductive SubEvent where
  | addTransaction (blockInfo : TransactionBlockInfo) (txHash : Hash)
  | markTransactionConfirmed (blockInfo : TransactionBlockInfo) (txHash : Hash)
  | onError (code : ErrC) (height : Nat)
  | advanceHeight (height : Nat)
deriving DecidableEq

/-- What one `processOutputs` call produces: the two out-parameters
`contains` and `updated`, the container afterwards, the subscription calls
made, and the value of the asserted height-equality condition at line 670
(`true` when the assert is not reached). -/
structure ProcessOutputsResult where
  contains : Bool
  updated : Bool
  container : ContainerState
  events : List SubEvent
  heightAssert : Bool
deriving DecidableEq

/-- Modelled from the spec: `markTransactionConfirmed` performs the
pool→chain transition, rewriting the stored height of the hash. -/
def markConfirmedUpdate (container : ContainerState) (txHash : Hash)
    (height : Nat) : ContainerState :=
  container.map (fun kv => if kv.1 = txHash then (kv.1, height) else kv)

/-- `TransfersConsumer::processOutputs` (lines 649-676).  `accepts` is the
subscription's own decision inside `addTransaction` of whether anything got
recorded (external code; the consumer only reads the returned boolean). -/
def processOutputs
    (accepts : TransactionBlockInfo → Hash →
      List TransactionOutputInformationIn → Bool)
    (container : ContainerState) (blockInfo : TransactionBlockInfo)
    (txHash : Hash) (transfers : List TransactionOutputInformationIn) :
    ProcessOutputsResult :=
  match container.lookup txHash with
  | some knownHeight =>
      if knownHeight = WALLET_UNCONFIRMED_TRANSACTION_HEIGHT
          ∧ blockInfo.height ≠ WALLET_UNCONFIRMED_TRANSACTION_HEIGHT then
        { contains := true, updated := true,
          container := markConfirmedUpdate container txHash blockInfo.height,
          events := [.markTransactionConfirmed blockInfo txHash],
          heightAssert := true }
      else
        { contains := true, updated := false, container := container,
          events := [], heightAssert := knownHeight == blockInfo.height }
  | none =>
      let acc := accepts blockInfo txHash transfers
      { contains := acc, updated := acc,
        container :=
          if acc then (txHash, blockInfo.height) :: container else container,
        events := [.addTransaction blockInfo txHash],
        heightAssert := true }

/-! ## Batch pipeline: `onNewBlocks` (lines 226-353) -/

/-- One `CompleteBlock`: whether the optional block is initialized, its
timestamp, and its transactions in block order. -/
structure CompleteBlockData where
  isInit : Bool
  timestamp : Nat
  transactions : List TransactionData
deriving DecidableEq

/-- One item of the bounded queue: the block info (with the transaction's
index in its block) and the transaction. -/
structure PreTx where
  blockInfo : TransactionBlockInfo
  tx : TransactionData
deriving DecidableEq

/-- The inner loop of the enumeration thread (lines 269-279): walk a block's
transactions, incrementing `transactionIndex` for every transaction and
skipping those whose public key is the null key. -/
def enumBlockTxs (blockInfo : TransactionBlockInfo) :
    List TransactionData → Nat → List PreTx
  | [], _ => []
  | t :: rest, txIndex =>
      if t.transactionPublicKey = NULL_PUBLIC_KEY then
        enumBlockTxs blockInfo rest (txIndex + 1)
      else
        ⟨{ blockInfo with transactionIndex := txIndex }, t⟩
          :: enumBlockTxs blockInfo rest (txIndex + 1)

/-- The enumeration thread (lines 251-283): walk the blocks in order,
skipping uninitialized blocks and blocks older than the sync-start timestamp
(when that is non-zero); block `i` gets height `startHeight + i`.  The
resulting list is the sequence of items pushed into the queue. -/
def enumerateBatch (syncStartTimestamp startHeight : Nat) :
    List CompleteBlockData → Nat → List PreTx
  | [], _ => []
  | b :: rest, i =>
      (if b.isInit = false then []
       else if syncStartTimestamp ≠ 0 ∧ b.timestamp < syncStartTimestamp then []
       else enumBlockTxs ⟨startHeight + i, b.timestamp, 0⟩ b.transactions 0)
        ++ enumerateBatch syncStartTimestamp startHeight rest (i + 1)

/-- The sort key of line 331: the pair (block height, transaction index in
block). -/
def txKey (p : PreTx) : Nat × Nat :=
  (p.blockInfo.height, p.blockInfo.transactionIndex)

/-- Lexicographic ≤ on sort keys — the negation of the strict `std::tie`
comparison used at lines 328-334. -/
def keyLe (a b : PreTx) : Prop :=
  a.blockInfo.height < b.blockInfo.height
    ∨ (a.blockInfo.height = b.blockInfo.height
        ∧ a.blockInfo.transactionIndex ≤ b.blockInfo.transactionIndex)

/-- Lexicographic < on sort keys (the comparator itself). -/
def keyLt (a b : PreTx) : Prop :=
  a.blockInfo.height < b.blockInfo.height
    ∨ (a.blockInfo.height = b.blockInfo.height
        ∧ a.blockInfo.transactionIndex < b.blockInfo.transactionIndex)

instance : DecidableRel keyLe := fun a b => by
  unfold keyLe
  exact inferInstance

instance : DecidableRel keyLt := fun a b => by
  unfold keyLt
  exact inferInstance

instance : IsTotal PreTx keyLe :=
  ⟨fun a b => by unfold keyLe; omega⟩

instance : IsTrans PreTx keyLe :=
  ⟨fun a b c hab hbc => by unfold keyLe at hab hbc ⊢; omega⟩

/-- The `std::sort` call of lines 328-334: `std::sort` is specified only as
producing a reordering sorted by the comparator; we embed it as insertion
sort by the key order (on the batches the pipeline feeds it the keys are
pairwise distinct, so every correct sort returns this same list). -/
def sortPreprocessed (l : List PreTx) : List PreTx :=
  l.insertionSort keyLe

/-- ≤ on bare key pairs. -/
def pairLe (a b : Nat × Nat) : Prop :=
  a.1 < b.1 ∨ (a.1 = b.1 ∧ a.2 ≤ b.2)

/-- The keys of the `add_transaction` calls in an event list, in order. -/
def addTransactionKeys : List SubEvent → List (Nat × Nat)
  | [] => []
  | .addTransaction bi _ :: rest =>
      (bi.height, bi.transactionIndex) :: addTransactionKeys rest
  | .markTransactionConfirmed _ _ :: rest => addTransactionKeys rest
  | .onError _ _ :: rest => addTransactionKeys rest
  | .advanceHeight _ :: rest => addTransactionKeys rest

/-- The serial apply stage (lines 336-338 together with `processTransaction`
and `processOutputs`), restricted to one subscription: fold the sorted
transactions through `processOutputs`, collecting the calls made. -/
def applyBatchToSub
    (accepts : TransactionBlockInfo → Hash →
      List TransactionOutputInformationIn → Bool)
    (tfsOf : PreTx → List TransactionOutputInformationIn) :
    ContainerState → List PreTx → ContainerState × List SubEvent
  | container, [] => (container, [])
  | container, p :: rest =>
      let r := processOutputs accepts container p.blockInfo
        p.tx.transactionHash (tfsOf p)
      let tail := applyBatchToSub accepts tfsOf r.container rest
      (tail.1, r.events ++ tail.2)

/-- The error kept by the aggregation loop (lines 309-321): the first
non-success code among the worker results, in join order. -/
def firstWorkerError (l : List ErrC) : Option ErrC :=
  l.find? (fun e => e != ErrC.ok)

/-- `TransfersConsumer::onNewBlocks` (lines 226-353), after the concurrent
stages are done: `accumulated` is the content of the shared
`preprocessedTransactions` vector at join time (worker scheduling decides its
order) and `workerResults` are the error codes of the worker futures in join
order.  On the first error: every subscription gets `onError(error,
startHeight)` and the call returns `false`, committing nothing.  Otherwise
the accumulated transactions are sorted by (height, transaction index) and
applied serially to every subscription, then every subscription's height is
advanced to `startHeight + count - 1`. -/
def onNewBlocksModel
    (accepts : TransactionBlockInfo → Hash →
      List TransactionOutputInformationIn → Bool)
    (tfsOf : PreTx → List TransactionOutputInformationIn)
    (subs : List (PublicKey × ContainerState))
    (accumulated : List PreTx) (workerResults : List ErrC)
    (startHeight count : Nat) :
    Bool × List (PublicKey × List SubEvent) :=
  match firstWorkerError workerResults with
  | some e =>
      (false, subs.map (fun kv => (kv.1, [SubEvent.onError e startHeight])))
  | none =>
      (true,
        subs.map (fun kv =>
          (kv.1,
            (applyBatchToSub accepts tfsOf kv.2
                (sortPreprocessed accumulated)).2
              ++ [SubEvent.advanceHeight (startHeight + count - 1)])))

/-! ### Pipeline lemmas -/

theorem enumBlockTxs_mem (blockInfo : TransactionBlockInfo) :
    ∀ (txs : List TransactionData) (txIndex : Nat) (p : PreTx),
      p ∈ enumBlockTxs blockInfo txs txIndex →
      p.blockInfo.height = blockInfo.height
        ∧ txIndex ≤ p.blockInfo.transactionIndex
  | [], txIndex, p, hp => by simp [enumBlockTxs] at hp
  | t :: rest, txIndex, p, hp => by
      by_cases hnull : t.transactionPublicKey = NULL_PUBLIC_KEY
      · rw [enumBlockTxs, if_pos hnull] at hp
        have := enumBlockTxs_mem blockInfo rest (txIndex + 1) p hp
        omega
      · rw [enumBlockTxs, if_neg hnull] at hp
        rcases List.mem_cons.mp hp with rfl | hp'
        · exact ⟨rfl, Nat.le_refl _⟩
        · have := enumBlockTxs_mem blockInfo rest (txIndex + 1) p hp'
          omega

theorem enumBlockTxs_sorted (blockInfo : TransactionBlockInfo) :
    ∀ (txs : List TransactionData) (txIndex : Nat),
      (enumBlockTxs blockInfo txs txIndex).Sorted keyLt
  | [], _ => List.sorted_nil
  | t :: rest, txIndex => by
      by_cases hnull : t.transactionPublicKey = NULL_PUBLIC_KEY
      · rw [enumBlockTxs, if_pos hnull]
        exact enumBlockTxs_sorted blockInfo rest (txIndex + 1)
      · rw [enumBlockTxs, if_neg hnull]
        rw [List.sorted_cons]
        refine ⟨fun q hq => ?_, enumBlockTxs_sorted blockInfo rest (txIndex + 1)⟩
        have hm := enumBlockTxs_mem blockInfo rest (txIndex + 1) q hq
        unfold keyLt
        right
        constructor
        · exact hm.1.symm
        · show txIndex < q.blockInfo.transactionIndex
          omega

theorem enumerateBatch_mem (syncTs startHeight : Nat) :
    ∀ (blocks : List CompleteBlockData) (i : Nat) (p : PreTx),
      p ∈ enumerateBatch syncTs startHeight blocks i →
      startHeight + i ≤ p.blockInfo.height
  | [], i, p, hp => by simp [enumerateBatch] at hp
  | b :: rest, i, p, hp => by
      rw [enumerateBatch] at hp
      rcases List.mem_append.mp hp with h | h
      · by_cases h1 : b.isInit = false
        · rw [if_pos h1] at h
          simp at h
        · rw [if_neg h1] at h
          by_cases h2 : syncTs ≠ 0 ∧ b.timestamp < syncTs
          · rw [if_pos h2] at h
            simp at h
          · rw [if_neg h2] at h
            have := (enumBlockTxs_mem _ _ _ _ h).1
            simp at this
            omega
      · have := enumerateBatch_mem syncTs startHeight rest (i + 1) p h
        omega

theorem enumerateBatch_sorted (syncTs startHeight : Nat) :
    ∀ (blocks : List CompleteBlockData) (i : Nat),
      (enumerateBatch syncTs startHeight blocks i).Sorted keyLt
  | [], _ => List.sorted_nil
  | b :: rest, i => by
      rw [enumerateBatch]
      show List.Pairwise keyLt _
      rw [List.pairwise_append]
      refine ⟨?_, enumerateBatch_sorted syncTs startHeight rest (i + 1),
        fun a ha c hc => ?_⟩
      · by_cases h1 : b.isInit = false
        · rw [if_pos h1]; exact List.sorted_nil
        · rw [if_neg h1]
          by_cases h2 : syncTs ≠ 0 ∧ b.timestamp < syncTs
          · rw [if_pos h2]; exact List.sorted_nil
          · rw [if_neg h2]; exact enumBlockTxs_sorted _ _ _
      · have hc' := enumerateBatch_mem syncTs startHeight rest (i + 1) c hc
        have ha' : a.blockInfo.height = startHeight + i := by
          by_cases h1 : b.isInit = false
          · rw [if_pos h1] at ha; simp at ha
          · rw [if_neg h1] at ha
            by_cases h2 : syncTs ≠ 0 ∧ b.timestamp < syncTs
            · rw [if_pos h2] at ha; simp at ha
            · rw [if_neg h2] at ha
              have := (enumBlockTxs_mem _ _ _ _ ha).1
              simpa using this
        unfold keyLt
        omega

theorem sorted_keyLt_nodup_keys (l : List PreTx) (h : l.Sorted keyLt) :
    (l.map txKey).Nodup := by
  apply List.pairwise_map.mpr
  apply h.imp
  intro a b hab
  unfold keyLt at hab
  unfold txKey
  intro he
  rw [Prod.mk.injEq] at he
  omega

theorem sorted_perm_nodup_key_eq :
    ∀ {l₁ l₂ : List PreTx}, l₁.Perm l₂ → l₁.Sorted keyLe → l₂.Sorted keyLe →
      (l₁.map txKey).Nodup → l₁ = l₂
  | [], l₂, hp, _, _, _ => hp.nil_eq
  | a :: t₁, [], hp, _, _, _ => absurd hp.symm.nil_eq (by simp)
  | a :: t₁, b :: t₂, hp, hs₁, hs₂, hnd => by
      have hab : b = a := by
        have hbmem : b ∈ a :: t₁ := hp.symm.subset (List.mem_cons_self b t₂)
        rcases List.mem_cons.mp hbmem with h | hbt₁
        · exact h
        · exfalso
          have hamem : a ∈ b :: t₂ := hp.subset (List.mem_cons_self a t₁)
          have h₁ : keyLe a b := (List.sorted_cons.mp hs₁).1 b hbt₁
          have h₂ : keyLe b a := by
            rcases List.mem_cons.mp hamem with rfl | hat₂
            · unfold keyLe; omega
            · exact (List.sorted_cons.mp hs₂).1 a hat₂
          have hkey : txKey b = txKey a := by
            unfold keyLe at h₁ h₂
            unfold txKey
            rw [Prod.mk.injEq]
            omega
          rw [List.map_cons, List.nodup_cons] at hnd
          exact hnd.1 (hkey ▸ List.mem_map_of_mem txKey hbt₁)
      subst hab
      have ht : t₁.Perm t₂ := hp.cons_inv
      have := sorted_perm_nodup_key_eq ht (List.sorted_cons.mp hs₁).2
        (List.sorted_cons.mp hs₂).2
        ((List.map_cons txKey b t₁ ▸ hnd).of_cons)
      rw [this]

theorem sortPreprocessed_sorted (l : List PreTx) :
    (sortPreprocessed l).Sorted keyLe :=
  List.sorted_insertionSort keyLe l

theorem sortPreprocessed_perm (l : List PreTx) :
    (sortPreprocessed l).Perm l :=
  List.perm_insertionSort keyLe l

theorem sortPreprocessed_deterministic (l l' : List PreTx)
    (hperm : l.Perm l') (hnd : (l.map txKey).Nodup) :
    sortPreprocessed l = sortPreprocessed l' := by
  apply sorted_perm_nodup_key_eq
  · exact (sortPreprocessed_perm l).trans
      (hperm.trans (sortPreprocessed_perm l').symm)
  · exact sortPreprocessed_sorted l
  · exact sortPreprocessed_sorted l'
  · exact (((sortPreprocessed_perm l).map txKey).nodup_iff).mpr hnd

theorem processOutputs_events_shape
    (accepts : TransactionBlockInfo → Hash →
      List TransactionOutputInformationIn → Bool)
    (container : ContainerState) (blockInfo : TransactionBlockInfo)
    (txHash : Hash) (transfers : List TransactionOutputInformationIn) :
    (processOutputs accepts container blockInfo txHash transfers).events = []
    ∨ (processOutputs accepts container blockInfo txHash transfers).events
        = [.markTransactionConfirmed blockInfo txHash]
    ∨ (processOutputs accepts container blockInfo txHash transfers).events
        = [.addTransaction blockInfo txHash] := by
  unfold processOutputs
  cases container.lookup txHash with
  | none => right; right; rfl
  | some knownHeight =>
      by_cases hc : knownHeight = WALLET_UNCONFIRMED_TRANSACTION_HEIGHT
          ∧ blockInfo.height ≠ WALLET_UNCONFIRMED_TRANSACTION_HEIGHT
      · right; left; simp [if_pos hc]
      · left; simp [if_neg hc]

theorem addTransactionKeys_append :
    ∀ (l₁ l₂ : List SubEvent),
      addTransactionKeys (l₁ ++ l₂)
        = addTransactionKeys l₁ ++ addTransactionKeys l₂
  | [], l₂ => rfl
  | .addTransaction bi h :: rest, l₂ => by
      simp only [List.cons_append, addTransactionKeys]
      exact congrArg (List.cons _) (addTransactionKeys_append rest l₂)
  | .markTransactionConfirmed _ _ :: rest, l₂ => by
      simp only [List.cons_append, addTransactionKeys]
      exact addTransactionKeys_append rest l₂
  | .onError _ _ :: rest, l₂ => by
      simp only [List.cons_append, addTransactionKeys]
      exact addTransactionKeys_append rest l₂
  | .advanceHeight _ :: rest, l₂ => by
      simp only [List.cons_append, addTransactionKeys]
      exact addTransactionKeys_append rest l₂

theorem addTransactionKeys_sublist
    (accepts : TransactionBlockInfo → Hash →
      List TransactionOutputInformationIn → Bool)
    (tfsOf : PreTx → List TransactionOutputInformationIn) :
    ∀ (l : List PreTx) (container : ContainerState),
      (addTransactionKeys (applyBatchToSub accepts tfsOf container l).2).Sublist
        (l.map txKey)
  | [], container => by simp [applyBatchToSub, addTransactionKeys]
  | p :: rest, container => by
      simp only [applyBatchToSub, List.map_cons]
      rw [addTransactionKeys_append]
      have ih := addTransactionKeys_sublist accepts tfsOf rest
        (processOutputs accepts container p.blockInfo p.tx.transactionHash
          (tfsOf p)).container
      rcases processOutputs_events_shape accepts container p.blockInfo
          p.tx.transactionHash (tfsOf p) with h | h | h
      · rw [h]
        simp only [addTransactionKeys, List.nil_append]
        exact ih.cons (txKey p)
      · rw [h]
        simp only [addTransactionKeys, List.nil_append]
        exact ih.cons (txKey p)
      · rw [h]
        simp only [addTransactionKeys, List.cons_append, List.nil_append]
        exact ih.cons₂ (txKey p)

theorem sorted_map_txKey (l : List PreTx) (h : l.Sorted keyLe) :
    (l.map txKey).Sorted pairLe := by
  apply List.pairwise_map.mpr
  apply h.imp
  intro a b hab
  exact hab

/-! ### Claim theorems about the apply stage and the pipeline -/

/-- C6: when the subscription's container already knows the transaction,
`processOutputs` never calls `addTransaction` again; if the known entry is at
the `UNCONFIRMED` sentinel and the incoming block info is confirmed it calls
exactly `markTransactionConfirmed` (the pool→chain transition, `updated`);
in every other case — including the confirmed-to-unconfirmed direction,
which therefore never produces any transition — it makes no call, and the
asserted invariant is the equality of the known and incoming heights. -/
theorem c6_pool_chain_one_way
    (accepts : TransactionBlockInfo → Hash →
      List TransactionOutputInformationIn → Bool)
    (container : ContainerState) (blockInfo : TransactionBlockInfo)
    (txHash : Hash) (transfers : List TransactionOutputInformationIn)
    (knownHeight : Nat)
    (hknown : container.lookup txHash = some knownHeight) :
    (∀ bi h, SubEvent.addTransaction bi h
        ∉ (processOutputs accepts container blockInfo txHash transfers).events)
    ∧ (knownHeight = WALLET_UNCONFIRMED_TRANSACTION_HEIGHT →
        blockInfo.height ≠ WALLET_UNCONFIRMED_TRANSACTION_HEIGHT →
        (processOutputs accepts container blockInfo txHash transfers).events
            = [.markTransactionConfirmed blockInfo txHash]
        ∧ (processOutputs accepts container blockInfo txHash
            transfers).updated = true)
    ∧ (¬(knownHeight = WALLET_UNCONFIRMED_TRANSACTION_HEIGHT
          ∧ blockInfo.height ≠ WALLET_UNCONFIRMED_TRANSACTION_HEIGHT) →
        (processOutputs accepts container blockInfo txHash transfers).events = []
        ∧ (processOutputs accepts container blockInfo txHash
            transfers).updated = false
        ∧ (processOutputs accepts container blockInfo txHash
            transfers).heightAssert = (knownHeight == blockInfo.height)) := by
  have hred : processOutputs accepts container blockInfo txHash transfers
      = if knownHeight = WALLET_UNCONFIRMED_TRANSACTION_HEIGHT
            ∧ blockInfo.height ≠ WALLET_UNCONFIRMED_TRANSACTION_HEIGHT then
          { contains := true, updated := true,
            container := markConfirmedUpdate container txHash blockInfo.height,
            events := [.markTransactionConfirmed blockInfo txHash],
            heightAssert := true }
        else
          { contains := true, updated := false, container := container,
            events := [], heightAssert := knownHeight == blockInfo.height } := by
    simp only [processOutputs, hknown]
  rw [hred]
  by_cases hc : knownHeight = WALLET_UNCONFIRMED_TRANSACTION_HEIGHT
      ∧ blockInfo.height ≠ WALLET_UNCONFIRMED_TRANSACTION_HEIGHT
  · rw [if_pos hc]
    exact ⟨fun bi h => by simp, fun _ _ => ⟨rfl, rfl⟩, fun hn => absurd hc hn⟩
  · rw [if_neg hc]
    exact ⟨fun bi h => by simp, fun h1 h2 => absurd ⟨h1, h2⟩ hc,
      fun _ => ⟨rfl, rfl, rfl⟩⟩

/-- Witness for C6 at concrete inputs: a container knowing transaction `5` at
the unconfirmed sentinel gets exactly `markTransactionConfirmed` when height
200 arrives; a container knowing it at height 200 gets no call and the
height-equality assertion holds. -/
theorem c6_pool_chain_one_way_witness :
    (processOutputs (fun _ _ _ => true)
        [(5, WALLET_UNCONFIRMED_TRANSACTION_HEIGHT)] ⟨200, 0, 0⟩ 5 []).events
      = [.markTransactionConfirmed ⟨200, 0, 0⟩ 5]
    ∧ (processOutputs (fun _ _ _ => true)
        [(5, WALLET_UNCONFIRMED_TRANSACTION_HEIGHT)] ⟨200, 0, 0⟩ 5 []).updated
      = true
    ∧ (processOutputs (fun _ _ _ => true) [(5, 200)] ⟨200, 0, 0⟩ 5 []).events
      = []
    ∧ (processOutputs (fun _ _ _ => true) [(5, 200)] ⟨200, 0, 0⟩ 5
        []).heightAssert = ((200 : Nat) == (200 : Nat)) :=
  ⟨((c6_pool_chain_one_way (fun _ _ _ => true)
      [(5, WALLET_UNCONFIRMED_TRANSACTION_HEIGHT)] ⟨200, 0, 0⟩ 5 []
      WALLET_UNCONFIRMED_TRANSACTION_HEIGHT (by decide)).2.1 rfl
      (by decide)).1,
    ((c6_pool_chain_one_way (fun _ _ _ => true)
      [(5, WALLET_UNCONFIRMED_TRANSACTION_HEIGHT)] ⟨200, 0, 0⟩ 5 []
      WALLET_UNCONFIRMED_TRANSACTION_HEIGHT (by decide)).2.1 rfl
      (by decide)).2,
    ((c6_pool_chain_one_way (fun _ _ _ => true) [(5, 200)] ⟨200, 0, 0⟩ 5 []
      200 (by decide)).2.2 (by decide)).1,
    ((c6_pool_chain_one_way (fun _ _ _ => true) [(5, 200)] ⟨200, 0, 0⟩ 5 []
      200 (by decide)).2.2 (by decide)).2.2⟩

/-- C4: when any worker of an `onNewBlocks` batch returns an error (a failed
preprocessing, e.g. the node's global-index lookup), the call returns
`false`, every subscription receives exactly `on_error(first_error,
start_height)` and nothing else — no `add_transaction`, no
`mark_transaction_confirmed`, no `advance_height`: no partial commit. -/
theorem c4_error_aborts_batch
    (accepts : TransactionBlockInfo → Hash →
      List TransactionOutputInformationIn → Bool)
    (tfsOf : PreTx → List TransactionOutputInformationIn)
    (subs : List (PublicKey × ContainerState)) (accumulated : List PreTx)
    (workerResults : List ErrC) (startHeight count : Nat)
    (herr : ∃ e ∈ workerResults, e ≠ ErrC.ok) :
    ∃ firstErr,
      firstWorkerError workerResults = some firstErr
      ∧ firstErr ≠ ErrC.ok
      ∧ onNewBlocksModel accepts tfsOf subs accumulated workerResults
          startHeight count
        = (false,
            subs.map (fun kv => (kv.1, [SubEvent.onError firstErr startHeight])))
      ∧ ∀ pr ∈ (onNewBlocksModel accepts tfsOf subs accumulated workerResults
          startHeight count).2,
          ∀ ev ∈ pr.2, ev = SubEvent.onError firstErr startHeight := by
  obtain ⟨e, he, hne⟩ := herr
  have hsome : (firstWorkerError workerResults).isSome := by
    rw [firstWorkerError, List.find?_isSome]
    exact ⟨e, he, by simpa using hne⟩
  obtain ⟨fe, hfe⟩ := Option.isSome_iff_exists.mp hsome
  have hfene : fe ≠ ErrC.ok := by
    have := List.find?_some hfe
    simpa using this
  refine ⟨fe, hfe, hfene, ?_, ?_⟩
  · unfold onNewBlocksModel
    rw [hfe]
  · intro pr hpr
    unfold onNewBlocksModel at hpr
    rw [hfe] at hpr
    simp only [List.mem_map] at hpr
    obtain ⟨kv, _, hkv⟩ := hpr
    intro ev hev
    rw [← hkv] at hev
    simpa using hev

/-- Witness for C4 at a concrete input: one of two workers fails with code 3;
the batch returns `false` and the only subscription receives exactly
`on_error`. -/
theorem c4_error_aborts_batch_witness :
    onNewBlocksModel (fun _ _ _ => true) (fun _ => []) [(7, [(9, 33)])] []
        [ErrC.ok, ErrC.err 3] 50 2
      = (false, [(7, [SubEvent.onError (ErrC.err 3) 50])]) := by
  obtain ⟨fe, hfe, _, heq, _⟩ := c4_error_aborts_batch (fun _ _ _ => true)
    (fun _ => []) [(7, [(9, 33)])] [] [ErrC.ok, ErrC.err 3] 50 2
    ⟨ErrC.err 3, by decide, by decide⟩
  have hfe' : firstWorkerError [ErrC.ok, ErrC.err 3] = some (ErrC.err 3) := by
    decide
  rw [hfe'] at hfe
  injection hfe with hfe
  subst hfe
  exact heq

/-- C2: in an error-free `onNewBlocks` batch the accumulated preprocessed
transactions — whatever order the workers pushed them in — are sorted by
(block height, transaction index in block) before being applied: the call
succeeds, the applied sequence is sorted by that key and is the same list for
every interleaving (the enumeration's keys are pairwise distinct), and
consequently the `add_transaction` calls any subscription receives carry
ascending (height, tx index) keys. -/
theorem c2_sorted_apply_order
    (accepts : TransactionBlockInfo → Hash →
      List TransactionOutputInformationIn → Bool)
    (tfsOf : PreTx → List TransactionOutputInformationIn)
    (subs : List (PublicKey × ContainerState))
    (blocks : List CompleteBlockData) (syncTs startHeight count : Nat)
    (accumulated : List PreTx) (workerResults : List ErrC)
    (hok : ∀ e ∈ workerResults, e = ErrC.ok)
    (hperm : accumulated.Perm (enumerateBatch syncTs startHeight blocks 0)) :
    (onNewBlocksModel accepts tfsOf subs accumulated workerResults
        startHeight count).1 = true
    ∧ (sortPreprocessed accumulated).Sorted keyLe
    ∧ sortPreprocessed accumulated
        = sortPreprocessed (enumerateBatch syncTs startHeight blocks 0)
    ∧ ∀ pr ∈ (onNewBlocksModel accepts tfsOf subs accumulated workerResults
        startHeight count).2,
        (addTransactionKeys pr.2).Sorted pairLe := by
  have hnone : firstWorkerError workerResults = none := by
    rw [firstWorkerError, List.find?_eq_none]
    intro e he
    simp [hok e he]
  refine ⟨?_, sortPreprocessed_sorted accumulated, ?_, ?_⟩
  · unfold onNewBlocksModel
    rw [hnone]
  · exact sortPreprocessed_deterministic _ _ hperm
      ((hperm.map txKey).nodup_iff.mpr
        (sorted_keyLt_nodup_keys _
          (enumerateBatch_sorted syncTs startHeight blocks 0)))
  · intro pr hpr
    unfold onNewBlocksModel at hpr
    rw [hnone] at hpr
    simp only [List.mem_map] at hpr
    obtain ⟨kv, _, hkv⟩ := hpr
    rw [← hkv]
    show (addTransactionKeys ((applyBatchToSub accepts tfsOf kv.2
      (sortPreprocessed accumulated)).2
        ++ [SubEvent.advanceHeight (startHeight + count - 1)])).Sorted pairLe
    rw [addTransactionKeys_append]
    simp only [addTransactionKeys, List.append_nil]
    exact List.Pairwise.sublist
      (addTransactionKeys_sublist accepts tfsOf
        (sortPreprocessed accumulated) kv.2)
      (sorted_map_txKey _ (sortPreprocessed_sorted accumulated))

/-- Witness for C2 at a concrete batch: two blocks at heights 50 and 51, the
accumulated list is a nontrivial interleaving of the three transactions, the
call succeeds and sorting it recovers the enumeration order. -/
theorem c2_sorted_apply_order_witness :
    (onNewBlocksModel (fun _ _ _ => true) (fun _ => []) [(7, [])]
        [⟨⟨51, 20, 0⟩, ⟨3, 103, []⟩⟩, ⟨⟨50, 10, 0⟩, ⟨1, 101, []⟩⟩,
          ⟨⟨50, 10, 1⟩, ⟨2, 102, []⟩⟩]
        [ErrC.ok, ErrC.ok] 50 2).1 = true
    ∧ sortPreprocessed
        [⟨⟨51, 20, 0⟩, ⟨3, 103, []⟩⟩, ⟨⟨50, 10, 0⟩, ⟨1, 101, []⟩⟩,
          ⟨⟨50, 10, 1⟩, ⟨2, 102, []⟩⟩]
      = sortPreprocessed
          (enumerateBatch 0 50
            [⟨true, 10, [⟨1, 101, []⟩, ⟨2, 102, []⟩]⟩,
              ⟨true, 20, [⟨3, 103, []⟩]⟩] 0) :=
  ⟨(c2_sorted_apply_order (fun _ _ _ => true) (fun _ => []) [(7, [])]
      [⟨true, 10, [⟨1, 101, []⟩, ⟨2, 102, []⟩]⟩, ⟨true, 20, [⟨3, 103, []⟩]⟩]
      0 50 2
      [⟨⟨51, 20, 0⟩, ⟨3, 103, []⟩⟩, ⟨⟨50, 10, 0⟩, ⟨1, 101, []⟩⟩,
        ⟨⟨50, 10, 1⟩, ⟨2, 102, []⟩⟩]
      [ErrC.ok, ErrC.ok] (by decide) (by decide)).1,
    (c2_sorted_apply_order (fun _ _ _ => true) (fun _ => []) [(7, [])]
      [⟨true, 10, [⟨1, 101, []⟩, ⟨2, 102, []⟩]⟩, ⟨true, 20, [⟨3, 103, []⟩]⟩]
      0 50 2
      [⟨⟨51, 20, 0⟩, ⟨3, 103, []⟩⟩, ⟨⟨50, 10, 0⟩, ⟨1, 101, []⟩⟩,
        ⟨⟨50, 10, 1⟩, ⟨2, 102, []⟩⟩]
      [ErrC.ok, ErrC.ok] (by decide) (by decide)).2.2.1⟩

end TransfersConsumerModel
